import Mathlib

/-!
Verification development for the load-driven space-partitioning repository.

The development shallowly embeds the two algorithmic components:

* `GridSpatialIndex` — the uniform bucket grid (grid-spatial-index.js):
  keyed insert/remove, radius queries, and the ring-expansion k-NN query
  `queryByCount`.
* `Partitioner` — the randomized trial loop (partitioner.js):
  nearest-focus assignment, external-interest derivation, load-factor cap,
  and best-result acceptance.

Modelling conventions:
* Coordinates handed to the grid are naturals (the partitioner normalizes all
  positions to be nonnegative before inserting; the JS `>>>` shift on a
  nonnegative number below 2^32 is truncating division by a power of two).
* Positions handed to the partitioner are integer pairs and squared distances
  are exact integers (the JS code computes them in floating point; the
  arithmetic the claims speak about is exact).
* Load factors are exact rationals (the JS code computes
  `100 * (micros / 1_000_000)` in floating point).
* JS generator functions are embedded as functions returning the list of
  yielded values; a `throw` becomes `Except.error`; the potentially
  non-terminating collection loop of `queryByCount` takes explicit fuel and
  returns `none` when the fuel is exhausted.
* Randomness is externalized: a trial receives the freshly placed focuses as
  an argument.
-/

namespace GridSpatialIndex

/-- Modelled from the spec: `euclideanDistanceSquared` lives in utils.js,
which is not among the provided sources; the spec's section 2 names it as the
squared Euclidean distance primitive. -/
def euclideanDistanceSquared (x0 y0 x1 y1 : Int) : Int :=
  (x1 - x0) ^ 2 + (y1 - y0) ^ 2

/-- Constructor parameters of `GridSpatialIndex` (grid-spatial-index.js,
`constructor`). -/
structure Grid where
  cellSizeExponent : Nat
  width : Nat
  height : Nat
deriving DecidableEq, Repr

/-- Source: `this.cellSize = 1 << this.cellSizeExponent`. -/
def cellSize (g : Grid) : Nat := 2 ^ g.cellSizeExponent

/-- Source: `this.widthInCells = Math.ceil(this.width / this.cellSize)`. -/
def widthInCells (g : Grid) : Nat := (g.width + cellSize g - 1) / cellSize g

/-- Source: `this.heightInCells = Math.ceil(this.height / this.cellSize)`. -/
def heightInCells (g : Grid) : Nat := (g.height + cellSize g - 1) / cellSize g

/-- Source: `this.totalCellCount = this.widthInCells * this.heightInCells`. -/
def totalCellCount (g : Grid) : Nat := widthInCells g * heightInCells g

/-- Source: `positionToCellIndex(x, y)`: `col = x >>> e; row = y >>> e;
row * widthInCells + col`. -/
def positionToCellIndex (g : Grid) (x y : Nat) : Nat :=
  (y >>> g.cellSizeExponent) * widthInCells g + (x >>> g.cellSizeExponent)

/-- One `CellEntry` (grid-spatial-index.js): the element (its key), the
coordinates it was created with, and the back-pointer to its current cell.
Following the design notes, the back-pointer is stored as the cell index. -/
structure CellEntry where
  key : Nat
  x : Nat
  y : Nat
  cellIdx : Nat
deriving DecidableEq, Repr

/-- The mutable state of a `GridSpatialIndex`: the per-cell entry sets
(JS `Set` iterated in insertion order, so a cell is a list of keys; the
coordinates of a key are read through the key map, which holds the same
entry objects in JS) and the `cellEntryByKey` map (an association list in
insertion order). -/
structure IndexState where
  cells : Nat → List Nat
  byKey : List CellEntry

/-- The freshly constructed index: every cell is empty and no key is mapped. -/
def emptyIndex : IndexState := { cells := fun _ => [], byKey := [] }

/-- Source: `this.cellEntryByKey.get(key)`. -/
def lookupEntry (s : IndexState) (k : Nat) : Option CellEntry :=
  s.byKey.find? (fun e => e.key = k)

/-- Source: `insert(key, x, y)` (grid-spatial-index.js lines 115-138).  The only
bounds check performed by the source is `if (!cell) throw`, i.e. whether the
computed cell index is inside the cell array.  On the update path the entry is
moved between cells but its stored `x`,`y` are left untouched, exactly as in
the source. -/
def insert (g : Grid) (s : IndexState) (k x y : Nat) :
    Except String (IndexState × Bool) :=
  let cellIndex := positionToCellIndex g x y
  if cellIndex < totalCellCount g then
    match lookupEntry s k with
    | some cellEntry =>
      if cellEntry.cellIdx ≠ cellIndex then
        Except.ok
          ({ cells := fun j =>
               if j = cellEntry.cellIdx then (s.cells j).erase k
               else if j = cellIndex then s.cells j ++ [k]
               else s.cells j,
             byKey := s.byKey.map (fun e =>
               if e.key = k then { e with cellIdx := cellIndex } else e) },
           false)
      else
        Except.ok (s, false)
    | none =>
      Except.ok
        ({ cells := fun j =>
             if j = cellIndex then s.cells j ++ [k] else s.cells j,
           byKey := s.byKey ++ [{ key := k, x := x, y := y,
                                  cellIdx := cellIndex }] },
         true)
  else
    Except.error ("Coordinate is out of bounds")

/-- Source: `remove(key)` (grid-spatial-index.js lines 144-153). -/
def remove (s : IndexState) (k : Nat) : IndexState × Bool :=
  match lookupEntry s k with
  | some cellEntry =>
    ({ cells := fun j =>
         if j = cellEntry.cellIdx then (s.cells j).erase k else s.cells j,
       byKey := s.byKey.filter (fun e => e.key ≠ k) },
     true)
  | none => (s, false)

/-- An operation on the index, used to quantify over reachable states. -/
inductive GridOp where
  | ins (k x y : Nat)
  | rem (k : Nat)

/-- Apply one operation; a throwing insert leaves the state unchanged (the JS
exception propagates before any mutation happens). -/
def applyOp (g : Grid) (s : IndexState) : GridOp → IndexState
  | GridOp.ins k x y =>
    match insert g s k x y with
    | Except.ok (s', _) => s'
    | Except.error _ => s
  | GridOp.rem k => (remove s k).1

/-- The state after a sequence of operations on the fresh index. -/
def runOps (g : Grid) (ops : List GridOp) : IndexState :=
  ops.foldl (applyOp g) emptyIndex

/-- Source: `constrain(min, val, max)`. -/
def constrain (lo v hi : Nat) : Nat := Nat.max lo (Nat.min v hi)

/-- Helper for `exceptIsOk`. -/
def exceptIsOk {ε α : Type} : Except ε α → Bool
  | Except.ok _ => true
  | Except.error _ => false

/-- The body of `iterateRelevantCells`' nested loops: visit the cell indices
in row-major order, throwing as soon as one is at or beyond
`this.cells.length` (which equals `totalCellCount`). -/
def collectCells (g : Grid) : List Nat → Except String (List Nat)
  | [] => Except.ok []
  | ci :: rest =>
    if totalCellCount g ≤ ci then Except.error ("Cell index out of bounds")
    else
      match collectCells g rest with
      | Except.ok l => Except.ok (ci :: l)
      | Except.error m => Except.error m

/-- Source: `iterateRelevantCells(x, y, radius)` (grid-spatial-index.js lines
176-202): clamp the query square to the board, shift the four edges into cell
coordinates, and walk the rectangle of cells row by row.  The JS `y - radius`
can be negative and is then clamped to 0 by `constrain`; natural subtraction
performs the same clamp.  Returns the yielded cell indices or the thrown
error. -/
def iterateRelevantCells (g : Grid) (x y radius : Nat) :
    Except String (List Nat) :=
  let top := constrain 0 (y - radius) g.height
  let right := constrain 0 (x + radius) g.width
  let bottom := constrain 0 (y + radius) g.height
  let left := constrain 0 (x - radius) g.width
  let rowStart := top >>> g.cellSizeExponent
  let rowEnd := bottom >>> g.cellSizeExponent
  let colStart := left >>> g.cellSizeExponent
  let colEnd := right >>> g.cellSizeExponent
  collectCells g
    ((List.range' rowStart (rowEnd + 1 - rowStart)).flatMap (fun row =>
      (List.range' colStart (colEnd + 1 - colStart)).map (fun col =>
        row * widthInCells g + col)))

/-- The three query modes of `GridSpatialIndex`. -/
inductive QueryMode where
  | raw
  | circle
  | square

/-- Source: `obtainDistanceFunction(mode, radius, x, y)` applied to a candidate entry
position.  `CIRCLE` mode compares `Math.hypot(|dx|, |dy|) <= radius`, which
for nonnegative radius is equivalent to the squared comparison used here. -/
def checkDistance (mode : QueryMode) (radius x y ex ey : Nat) : Bool :=
  match mode with
  | QueryMode.raw => true
  | QueryMode.circle =>
    decide (euclideanDistanceSquared x y ex ey ≤ (radius : Int) ^ 2)
  | QueryMode.square =>
    decide (((ex : Int) - (x : Int)).natAbs ≤ radius) &&
      decide (((ey : Int) - (y : Int)).natAbs ≤ radius)

/-- The `x` coordinate of key `k`'s entry (in JS the cell set holds the entry
object itself; here the cells hold keys and the coordinates are read through
the key map, which holds the same data). -/
def entryX (s : IndexState) (k : Nat) : Nat :=
  ((lookupEntry s k).map CellEntry.x).getD 0

/-- The `y` coordinate of key `k`'s entry. -/
def entryY (s : IndexState) (k : Nat) : Nat :=
  ((lookupEntry s k).map CellEntry.y).getD 0

/-- Source: `query(x, y, cullingRadius, mode)` (grid-spatial-index.js lines 218-228):
for every relevant cell, yield the elements passing the distance check; an
error thrown while iterating cells aborts the whole query. -/
def query (g : Grid) (s : IndexState) (x y radius : Nat) (mode : QueryMode) :
    Except String (List Nat) :=
  match iterateRelevantCells g x y radius with
  | Except.ok cis =>
    Except.ok (cis.flatMap (fun ci =>
      (s.cells ci).filter (fun k =>
        checkDistance mode radius x y (entryX s k) (entryY s k))))
  | Except.error m => Except.error m

/-- Source: `iterateCellsAtPosition(x, y, level)` (grid-spatial-index.js lines
278-310), as the list of yielded cell indices.  Note the source peculiarity
kept here: the intermediate-row loop runs `row = top + 1` while
`row < bottom - 1`, and the degenerate branch fires whenever
`right - left === 0`. -/
def iterateCellsAtPosition (g : Grid) (x y level : Nat) : List Nat :=
  let centerX := x >>> g.cellSizeExponent
  let centerY := y >>> g.cellSizeExponent
  let left := centerX - (level - 1)
  let right := Nat.min (centerX + (level - 1)) (widthInCells g - 1)
  let top := centerY - (level - 1)
  let bottom := Nat.min (centerY + (level - 1)) (heightInCells g - 1)
  if right - left = 0 then
    let cellIndex := centerY * widthInCells g + centerX
    if cellIndex < totalCellCount g then [cellIndex] else []
  else
    (List.range' left (right + 1 - left)).map
      (fun col => top * widthInCells g + col)
    ++ (List.range' (top + 1) (bottom - 1 - (top + 1))).flatMap
      (fun row => [row * widthInCells g + left, row * widthInCells g + right])
    ++ (List.range' left (right + 1 - left)).map
      (fun col => bottom * widthInCells g + col)

/-- Squared distance from the query point to key `k`'s entry, as used by the
`queryByCount` sort comparator. -/
def distOfKey (s : IndexState) (x y k : Nat) : Int :=
  euclideanDistanceSquared x y (entryX s k) (entryY s k)

/-- Stable insertion used to model the JS stable `Array#sort` with comparator
`distA - distB`: a key moves before another only when its distance is
strictly smaller, so equal distances keep their collection order. -/
def insertSorted (f : Nat → Int) (k : Nat) : List Nat → List Nat
  | [] => [k]
  | a :: rest =>
    if f k < f a then k :: a :: rest else a :: insertSorted f k rest

/-- Sort the collected candidate keys by squared distance (stable). -/
def sortByDist (s : IndexState) (x y : Nat) (ks : List Nat) : List Nat :=
  ks.foldl (fun acc k => insertSorted (distOfKey s x y) k acc) []

/-- The collection loop of `queryByCount` (grid-spatial-index.js lines
240-251): `while (entries.length < count) { level++; push all entries of the
cells at the new level; if no cell was yielded, break }`.  The loop has no
termination guarantee, so it takes fuel and returns `none` when the fuel runs
out. -/
def collectLoop (g : Grid) (s : IndexState) (x y count : Nat) :
    Nat → Nat → List Nat → Option (List Nat)
  | 0, _, _ => none
  | fuel + 1, level, entries =>
    if entries.length < count then
      let cs := iterateCellsAtPosition g x y (level + 1)
      let entries' := entries ++ cs.flatMap (fun ci => s.cells ci)
      if cs.isEmpty then some entries'
      else collectLoop g s x y count fuel (level + 1) entries'
    else some entries

/-- Source: `queryByCount(x, y, count)` (grid-spatial-index.js lines 236-262):
collect by ring expansion, sort by squared distance, return the first
`count` elements.  `none` means the collection loop was still running when
the fuel ran out. -/
def queryByCount (g : Grid) (s : IndexState) (x y count fuel : Nat) :
    Option (List Nat) :=
  (collectLoop g s x y count fuel 0 []).map
    (fun entries => (sortByDist s x y entries).take count)

end GridSpatialIndex

namespace Partitioner

/-- Source: `PROC_TIME_MINE_IN_MICROS = 20`. -/
def PROC_TIME_MINE_IN_MICROS : ℚ := 20

/-- Source: `PROC_TIME_OTHER_IN_MICROS = 1`. -/
def PROC_TIME_OTHER_IN_MICROS : ℚ := 1

/-- Source: `PLAYER_STATE_SEND_FREQ_IN_HZ = 5`. -/
def PLAYER_STATE_SEND_FREQ_IN_HZ : ℚ := 5

/-- Source: `MAX_COMFORTABLE_LOAD_FACTOR = 50`. -/
def MAX_COMFORTABLE_LOAD_FACTOR : ℚ := 50

/-- The per-dataset configuration of a partitioner: the (normalized) player
positions, the precomputed neighbor lists, and the load cap.  The cap is the
constant 50 in partitioner.js; the revision driven by index.js receives it as
a constructor argument, so it is a parameter here. -/
structure PConfig where
  positions : List (Int × Int)
  neighbors : Nat → List Nat
  maxComfortableLoadFactor : ℚ

/-- Source: `this.playerPositions[n]` (reads out of range never happen for player
indices produced by the loops modelled here). -/
def posOf (cfg : PConfig) (n : Nat) : Int × Int := cfg.positions.getD n (0, 0)

/-- The inner loop of the player-assignment phase (partitioner.js lines
143-152): scan the focuses keeping the first index whose squared distance is
strictly smaller than the best so far.  The accumulator `none` plays the role
of `closestFocusIndex = -1` with `closestFocusDistanceSquared = +Infinity`. -/
def closestFocusAux (p : Int × Int) :
    List (Int × Int) → Nat → Option (Nat × Int) → Option (Nat × Int)
  | [], _, best => best
  | f :: fs, fi, best =>
    let d := GridSpatialIndex.euclideanDistanceSquared p.1 p.2 f.1 f.2
    let best' :=
      match best with
      | none => some (fi, d)
      | some (bi, bd) => if d < bd then (fi, d) else (bi, bd)
    closestFocusAux p fs (fi + 1) best'

/-- The focus index a player at `p` is assigned to; `none` only when the
focus list is empty (where the JS code would fault on index `-1`). -/
def closestFocus (focuses : List (Int × Int)) (p : Int × Int) : Option Nat :=
  (closestFocusAux p focuses 0 none).map Prod.fst

/-- The player-assignment loop (partitioner.js lines 141-160): walk the
positions in order, adding each player index to the own-set of its closest
focus.  The own-sets are kept as a function from focus index to the list of
assigned players in insertion order (JS `Set` iterates in insertion order). -/
def assignPlayersAux (focuses : List (Int × Int)) :
    List (Int × Int) → Nat → (Nat → List Nat) → Nat → List Nat
  | [], _, own => own
  | p :: ps, n, own =>
    match closestFocus focuses p with
    | some c =>
      assignPlayersAux focuses ps (n + 1)
        (fun j => if j = c then own j ++ [n] else own j)
    | none => assignPlayersAux focuses ps (n + 1) own

/-- The sets `ownPlayersByFocusIndex` after the assignment loop. -/
def assignPlayers (focuses : List (Int × Int))
    (positions : List (Int × Int)) : Nat → List Nat :=
  assignPlayersAux focuses positions 0 (fun _ => [])

/-- The inner neighbor loop of the interest-derivation phase (partitioner.js
lines 168-172): add every neighbor not in the own-set to the external
interest set (JS `Set.add` deduplicates and keeps insertion order). -/
def addNeighbors (own : List Nat) (acc : List Nat) : List Nat → List Nat
  | [] => acc
  | nb :: rest =>
    addNeighbors own
      (if nb ∈ own then acc else if nb ∈ acc then acc else acc ++ [nb]) rest

/-- The outer loop of the interest-derivation phase (partitioner.js lines
167-173). -/
def externalInterestAux (own : List Nat) (nbrs : Nat → List Nat)
    (acc : List Nat) : List Nat → List Nat
  | [] => acc
  | p :: rest => externalInterestAux own nbrs (addNeighbors own acc (nbrs p)) rest

/-- The external interest set derived for a focus whose own-set is `own`. -/
def externalInterestOf (own : List Nat) (nbrs : Nat → List Nat) : List Nat :=
  externalInterestAux own nbrs [] own

/-- The own-set of focus `i` in the trial with the given focus placements. -/
def trialOwn (cfg : PConfig) (focuses : List (Int × Int)) : Nat → List Nat :=
  assignPlayers focuses cfg.positions

/-- The external interest set of focus `i` in the trial. -/
def trialExt (cfg : PConfig) (focuses : List (Int × Int)) (i : Nat) :
    List Nat :=
  externalInterestOf (trialOwn cfg focuses i) cfg.neighbors

/-- The load factor of a focus (partitioner.js lines 175-179):
`100 * (5 * (own * 20 + ext * 1) / 1_000_000)`. -/
def loadFactorOf (ownSize extSize : Nat) : ℚ :=
  let totalTimeInMicros : ℚ :=
    PLAYER_STATE_SEND_FREQ_IN_HZ *
      ((ownSize : ℚ) * PROC_TIME_MINE_IN_MICROS +
        (extSize : ℚ) * PROC_TIME_OTHER_IN_MICROS)
  100 * (totalTimeInMicros / 1000000)

/-- The load factor computed for focus `i` of a trial. -/
def trialLoadFactor (cfg : PConfig) (focuses : List (Int × Int)) (i : Nat) :
    ℚ :=
  loadFactorOf (trialOwn cfg focuses i).length (trialExt cfg focuses i).length

/-- The per-focus loop of partitioner.js lines 163-186, starting after the
interest sets are derived: check the load cap, record the load factor, and
accumulate the forwards.  Returns the load-factor table and forwards accumulated so far
and forwards total together with `false` when the loop aborted on a cap
violation. -/
def focusLoop (maxLF : ℚ) (own ext : Nat → List Nat) :
    List Nat → (Nat → ℚ) × Nat → ((Nat → ℚ) × Nat) × Bool
  | [], st => (st, true)
  | i :: rest, (lfs, fwd) =>
    let lf := loadFactorOf (own i).length (ext i).length
    if maxLF < lf then ((lfs, fwd), false)
    else
      focusLoop maxLF own ext rest
        ((fun j => if j = i then lf else lfs j), fwd + (ext i).length)

/-- The total number of forwards of a trial, when its focus loop survives the
load cap; `none` when the trial is rejected by the cap. -/
def trialForwards (cfg : PConfig) (focuses : List (Int × Int)) :
    Option Nat :=
  let r := focusLoop cfg.maxComfortableLoadFactor (trialOwn cfg focuses)
    (trialExt cfg focuses) (List.range focuses.length) ((fun _ => 0), 0)
  if r.2 then some r.1.2 else none

/-- Modelled from the spec: the `Snapshot.isWithinComfortableLFThreshold`
field is declared in the provided Snapshot source, but the partitioner
revision that assigns it is not among the provided sources.  Per the spec it
is true iff every load factor is within the cap, and is marked false when a
trial aborts on a load-cap violation. -/
def isWithinComfortableLFThreshold (lfs : List ℚ) (maxLF : ℚ) : Bool :=
  lfs.all (fun lf => decide (lf ≤ maxLF))

/-- The observable state of a `Partitioner` across trials.  `best` models
`bestTotalNumberOfForwards`, with `none` standing for the initial
`Number.POSITIVE_INFINITY`.  The hull accumulators are modelled by the lists
of points fed to them (the convex-hull computation itself is an external
collaborator). -/
structure PState where
  focuses : List (Int × Int)
  innerPts : Nat → List (Int × Int)
  outerPts : Nat → List (Int × Int)
  loadFactors : Nat → ℚ
  totalForwards : Nat
  best : Option Nat
  failures : Nat
  runs : Nat

/-- The partitioner right after construction. -/
def initialPState : PState :=
  { focuses := [], innerPts := fun _ => [], outerPts := fun _ => [],
    loadFactors := fun _ => 0, totalForwards := 0, best := none,
    failures := 0, runs := 0 }

/-- Source: `this.totalNumberOfForwards >= this.bestTotalNumberOfForwards`, where
`none` is `+Infinity` (a finite number is never ≥ infinity). -/
def geBest (fwd : Nat) : Option Nat → Bool
  | none => false
  | some b => b ≤ fwd

/-- Source: `assignPlayersToFocuses()` (partitioner.js lines 123-204).  The hull
vertex arrays are replaced, the first `F` load-factor slots are zeroed, the
players are assigned, the per-focus loop checks the cap, and finally the
acceptance decision compares the forwards total against the best so far.
On acceptance the interest-set positions are also fed to the outer hulls. -/
def assignPlayersToFocuses (cfg : PConfig) (st : PState) : PState × Bool :=
  let fcs := st.focuses
  let F := fcs.length
  let own := trialOwn cfg fcs
  let ext := trialExt cfg fcs
  let inner : Nat → List (Int × Int) := fun i => (own i).map (posOf cfg)
  let outer0 : Nat → List (Int × Int) := fun i => (own i).map (posOf cfg)
  let lfs0 : Nat → ℚ := fun i => if i < F then 0 else st.loadFactors i
  let r := focusLoop cfg.maxComfortableLoadFactor own ext
    (List.range F) (lfs0, 0)
  if r.2 = false then
    ({ st with innerPts := inner, outerPts := outer0,
               loadFactors := r.1.1, totalForwards := r.1.2,
               failures := st.failures + 1 },
     false)
  else if geBest r.1.2 st.best then
    ({ st with innerPts := inner, outerPts := outer0,
               loadFactors := r.1.1, totalForwards := r.1.2 },
     false)
  else
    ({ st with innerPts := inner,
               outerPts := fun i => outer0 i ++ (ext i).map (posOf cfg),
               loadFactors := r.1.1, totalForwards := r.1.2,
               best := some r.1.2 },
     true)

/-- Source: `randomizeFocuses()` (partitioner.js lines 96-111), with the randomly
placed focuses supplied as an argument: install the new focuses, run the
trial, bump the run counter, and report whether the trial improved the
best. -/
def randomizeFocuses (cfg : PConfig) (st : PState)
    (fcs : List (Int × Int)) : PState × Bool :=
  let st1 := { st with focuses := fcs }
  let res := assignPlayersToFocuses cfg st1
  ({ res.1 with runs := res.1.runs + 1 }, res.2)

/-- A back-to-back sequence of trials. -/
def runTrials (cfg : PConfig) (st : PState)
    (inputs : List (List (Int × Int))) : PState :=
  inputs.foldl (fun s fcs => (randomizeFocuses cfg s fcs).1) st

/-- Spec-side reading of strict improvement against the retained best
(`none` is `+Infinity`). -/
def ltBest (fwd : Nat) : Option Nat → Prop
  | none => True
  | some b => fwd < b

/-- Spec-side order on retained bests, with `none` as `+Infinity`. -/
def bestLE : Option Nat → Option Nat → Prop
  | _, none => True
  | none, some _ => False
  | some a, some b => a ≤ b

/-- The squared distance from `p` to focus `j` of the focus list (spec-side
helper for stating the argmin property). -/
def distTo (focuses : List (Int × Int)) (p : Int × Int) (j : Nat) : Int :=
  GridSpatialIndex.euclideanDistanceSquared p.1 p.2
    (focuses.getD j (0, 0)).1 (focuses.getD j (0, 0)).2

/-- Spec-side statement that `i` is the lowest index among the focuses at
minimal squared distance from `p`. -/
def IsArgminLowest (focuses : List (Int × Int)) (p : Int × Int) (i : Nat) :
    Prop :=
  i < focuses.length ∧
  (∀ j, j < focuses.length → distTo focuses p i ≤ distTo focuses p j) ∧
  (∀ j, j < i → distTo focuses p i < distTo focuses p j)

/-- The partition property claimed for the assignment phase: every player
index below `N` lands in exactly one own-set, own-sets contain only player
indices below `N`, and membership is exactly lowest-index argmin
assignment. -/
def PartitionHolds (focuses positions : List (Int × Int)) : Prop :=
  (∀ n, n < positions.length →
    ∃ i, i < focuses.length ∧ n ∈ assignPlayers focuses positions i ∧
      ∀ j, n ∈ assignPlayers focuses positions j → j = i) ∧
  (∀ i n, n ∈ assignPlayers focuses positions i →
    n < positions.length ∧ IsArgminLowest focuses (positions.getD n (0, 0)) i)

/-- The external-interest soundness property for one focus of a trial. -/
def ExtInterestConcl (cfg : PConfig) (focuses : List (Int × Int))
    (i n : Nat) : Prop :=
  (n ∈ trialExt cfg focuses i ↔
    n ∉ trialOwn cfg focuses i ∧
      ∃ p ∈ trialOwn cfg focuses i, n ∈ cfg.neighbors p) ∧
  (n ∈ trialExt cfg focuses i → n ∉ trialOwn cfg focuses i)

/-- What a load-cap violation does to a trial: not successful, exactly one
more failure, retained best untouched, and the (spec-modelled) snapshot flag
false. -/
def LoadCapConcl (cfg : PConfig) (st : PState)
    (fcs : List (Int × Int)) : Prop :=
  (randomizeFocuses cfg st fcs).2 = false ∧
  (randomizeFocuses cfg st fcs).1.failures = st.failures + 1 ∧
  (randomizeFocuses cfg st fcs).1.best = st.best ∧
  isWithinComfortableLFThreshold
    ((List.range fcs.length).map (trialLoadFactor cfg fcs))
    cfg.maxComfortableLoadFactor = false

/-- The acceptance semantics of the trial loop: the retained best starts at
`+Infinity`, the acceptance test is exactly strict improvement, a successful
trial installs the trial's forwards total as the new best, an unsuccessful
one leaves the best unchanged, and the best is non-increasing across any
sequence of trials. -/
def MonotoneBest (cfg : PConfig) : Prop :=
  initialPState.best = none ∧
  (∀ fwd b, geBest fwd b = false ↔ ltBest fwd b) ∧
  (∀ st fcs, bestLE (randomizeFocuses cfg st fcs).1.best st.best) ∧
  (∀ st fcs f, trialForwards cfg fcs = some f →
    ((randomizeFocuses cfg st fcs).2 = true ↔ ltBest f st.best) ∧
    ((randomizeFocuses cfg st fcs).2 = true →
      (randomizeFocuses cfg st fcs).1.best = some f) ∧
    ((randomizeFocuses cfg st fcs).2 = false →
      (randomizeFocuses cfg st fcs).1.best = st.best)) ∧
  (∀ st fcs, trialForwards cfg fcs = none →
    (randomizeFocuses cfg st fcs).2 = false ∧
    (randomizeFocuses cfg st fcs).1.best = st.best) ∧
  (∀ st inputs, bestLE (runTrials cfg st inputs).best st.best)

/-- What is actually preserved by a rejected trial: the retained best (and
the run counter ticks), while the current focuses are overwritten with the
trial's placements. -/
def RejectedTrialConcl (cfg : PConfig) (st : PState)
    (fcs : List (Int × Int)) : Prop :=
  (randomizeFocuses cfg st fcs).1.best = st.best ∧
  (randomizeFocuses cfg st fcs).1.focuses = fcs ∧
  (randomizeFocuses cfg st fcs).1.runs = st.runs + 1

/-- First-strict-minimum scan over a list of distances, starting from a
current best `(index, distance)` pair; the focuses of the assignment loop are
scanned exactly like this. -/
def selectMin (fi : Nat) (b : Nat × Int) : List Int → Nat × Int
  | [] => b
  | d :: ds => if d < b.2 then selectMin (fi + 1) (fi, d) ds
               else selectMin (fi + 1) b ds

/-- Example configuration: one player at the origin whose neighbor list is
itself, with the default load cap. -/
def cfgX : PConfig :=
  { positions := [(0, 0)], neighbors := fun _ => [0],
    maxComfortableLoadFactor := MAX_COMFORTABLE_LOAD_FACTOR }

/-- The partitioner state after one accepted trial of `cfgX` with focus
placement `(1, 1)`. -/
def stX1 : PState := (randomizeFocuses cfgX initialPState [(1, 1)]).1

/-- Example configuration with a zero load cap, so that any trial with at
least one player violates the cap. -/
def cfgY : PConfig :=
  { positions := [(0, 0)], neighbors := fun _ => [0],
    maxComfortableLoadFactor := 0 }

end Partitioner

namespace GridSpatialIndex

/-- An 8×8 board with unit cells, holding key 0 at `(3, 4)` and key 1 at
`(0, 0)`. -/
def gA : Grid := { cellSizeExponent := 0, width := 8, height := 8 }

/-- The index state of `gA` after the two inserts. -/
def sA : IndexState := runOps gA [GridOp.ins 0 3 4, GridOp.ins 1 0 0]

/-- A 2×2 board with unit cells. -/
def gB : Grid := { cellSizeExponent := 0, width := 2, height := 2 }

/-- A 2×1 board with unit cells. -/
def g9 : Grid := { cellSizeExponent := 0, width := 2, height := 1 }

/-- The state of `g9` after inserting key 7 at `(0, 0)` and re-inserting it
at `(1, 0)`. -/
def s9 : IndexState := runOps g9 [GridOp.ins 7 0 0, GridOp.ins 7 1 0]

/-- Well-formedness of an index state: the key map has no duplicate keys,
no cell holds a key twice, and a key sits in cell `j` exactly when its map
entry points at cell `j`. -/
def WF (s : IndexState) : Prop :=
  (s.byKey.map CellEntry.key).Nodup ∧
  (∀ j, (s.cells j).Nodup) ∧
  (∀ j k, k ∈ s.cells j ↔ ∃ e ∈ s.byKey, e.key = k ∧ e.cellIdx = j)

/-- The amended bounds behavior of `insert`: it fails exactly when the
computed cell index falls outside the cell array, and in particular succeeds
for every in-bounds coordinate. -/
def InsertBoundsConcl (g : Grid) (s : IndexState) (k x y : Nat) : Prop :=
  (exceptIsOk (insert g s k x y) = false ↔
    totalCellCount g ≤ positionToCellIndex g x y) ∧
  (x < g.width → y < g.height → exceptIsOk (insert g s k x y) = true)

/-- The amended cell-placement behavior of a successful `insert`: afterwards
the key sits in exactly one cell, namely the cell covering the coordinates
just passed to `insert`; a fresh entry records those coordinates, while an
updated entry keeps the coordinates it was created with. -/
def InsertCellConcl (g : Grid) (s : IndexState) (k x y : Nat)
    (s' : IndexState) : Prop :=
  (∃! j, k ∈ s'.cells j) ∧
  (∀ j, k ∈ s'.cells j → j = positionToCellIndex g x y) ∧
  (∃ e', lookupEntry s' k = some e') ∧
  (∀ e', lookupEntry s' k = some e' →
    e'.cellIdx = positionToCellIndex g x y ∧
    (lookupEntry s k = none → e'.x = x ∧ e'.y = y) ∧
    (∀ e0, lookupEntry s k = some e0 → e'.x = e0.x ∧ e'.y = e0.y))

end GridSpatialIndex

open GridSpatialIndex Partitioner

open GridSpatialIndex Partitioner

/-- Claim C1.  On the 8×8 unit-cell grid holding key 0 at `(3, 4)` and key 1
at `(0, 0)`, `queryByCount(4, 4, 1)` terminates and returns key 1 — the entry
at squared distance 32 — even though key 0 sits in the index (in cell 35) at
squared distance 1.  The ring iterator's intermediate-row loop
(`row < bottom - 1`) skips the middle-row side cells of every ring, so the
cell of key 0 is never visited and the claimed k-nearest-neighbor result does
not hold. -/
theorem C1_queryByCount_returns_non_nearest :
    queryByCount gA sA 4 4 1 6 = some [1] ∧
    (0 : Nat) ∈ sA.cells 35 ∧
    positionToCellIndex gA 3 4 = 35 ∧
    euclideanDistanceSquared 4 4 3 4 < euclideanDistanceSquared 4 4 0 0 := by
  refine ⟨by decide, by decide, by decide, by decide⟩

/-- Helper for claim C6: on the 2×2 board the ring iterator at the origin
yields the full 2×2 block at every level beyond the first, so it never
yields zero cells. -/
theorem iterateCellsAtPosition_gB_high (l : Nat) :
    iterateCellsAtPosition gB 0 0 (l + 2) = [0, 1, 2, 3] := by
  have he : gB.cellSizeExponent = 0 := rfl
  have hw : widthInCells gB = 2 := by decide
  have hh : heightInCells gB = 2 := by decide
  have ht : totalCellCount gB = 4 := by decide
  simp only [iterateCellsAtPosition, he, hw, hh, ht]
  norm_num
  decide

/-- Helper for claim C6: with an empty index and an in-bounds query point the
collection loop of `queryByCount` can never reach either of its exit
conditions, whatever fuel it is given. -/
theorem collectLoop_gB_empty :
    ∀ fuel level, collectLoop gB emptyIndex 0 0 1 fuel level [] = none := by
  intro fuel
  induction fuel with
  | zero => intro level; rfl
  | succ n ih =>
    intro level
    have hflat : ∀ cs : List Nat,
        cs.flatMap (fun ci => emptyIndex.cells ci) = [] := by
      intro cs; simp [emptyIndex]
    have hne : iterateCellsAtPosition gB 0 0 (level + 1) ≠ [] := by
      match level with
      | 0 => decide
      | l + 1 =>
        rw [iterateCellsAtPosition_gB_high l]
        decide
    show collectLoop gB emptyIndex 0 0 1 (n + 1) level [] = none
    rw [collectLoop]
    simp only [List.length_nil, Nat.zero_lt_one, if_true, hflat,
      List.append_nil]
    rw [List.isEmpty_eq_false.mpr hne, if_neg (by decide : ¬ false = true)]
    exact ih (level + 1)

/-- Claim C6.  On the 2×2 unit-cell board with an empty index, the in-bounds
call `queryByCount(0, 0, 1)` never terminates: for every amount of fuel the
collection loop is still running when the fuel runs out, because every level
yields at least one (already seen) cell — so the `cellCount === 0` break
never fires — while the collected count never reaches 1. -/
theorem C6_queryByCount_nonterminating_on_empty :
    ∀ fuel, queryByCount gB emptyIndex 0 0 1 fuel = none := by
  intro fuel
  unfold queryByCount
  rw [collectLoop_gB_empty fuel 0]
  rfl

/-- Claim C7.  On the 2×2 unit-cell board, the radius query at the in-board
point `(1, 1)` with radius 1 fails in every mode: the query square is clipped
to `bottom = height = 2`, which shifts to `rowEnd = 2 = heightInCells`, and
the traversal reaches cell index 4 ≥ totalCellCount and throws. -/
theorem C7_query_throws_at_edge :
    ∀ mode, exceptIsOk (query gB emptyIndex 1 1 1 mode) = false := by
  intro mode
  cases mode <;> decide

/-- Claim C8, counterexample.  On the 2×2 board, inserting at `(2, 0)` —
whose x-coordinate is outside `[0, width)` — succeeds, because the computed
cell index `0 * widthInCells + 2 = 2` is still inside the cell array; the
claim predicts an out-of-bounds failure for every such coordinate. -/
theorem C8_counterexample_out_of_bounds_insert_succeeds :
    ¬ (2 < gB.width) ∧
    exceptIsOk (insert gB emptyIndex 5 2 0) = true := by
  refine ⟨by decide, by decide⟩

/-- Claim C9, counterexample.  On the 2×1 board, after inserting key 7 at
`(0, 0)` and re-inserting it at `(1, 0)`, the entry has moved to cell 1 (the
cell of the new coordinates) but still records the original coordinates
`(0, 0)`, whose covering cell is 0 ≠ 1 — so the entry's cell does not cover
the coordinates it holds, and the re-insert did not update them. -/
theorem C9_counterexample_stale_coordinates :
    lookupEntry s9 7 = some { key := 7, x := 0, y := 0, cellIdx := 1 } ∧
    positionToCellIndex g9 0 0 = 0 ∧
    (0 : Nat) ≠ 1 := by
  refine ⟨by decide, by decide, by decide⟩
/-- Projection helper for pairs. -/
theorem pair_fst {α β : Type} (a : α) (b : β) : (a, b).1 = a := rfl
/-- Projection helper for pairs. -/
theorem pair_snd {α β : Type} (a : α) (b : β) : (a, b).2 = b := rfl

/-- Characterization of one `assignPlayersToFocuses` call in terms of the
result of its per-focus loop: the trial state keeps its focuses and run
counter, records the loop's load factors and forwards, bumps the failure
counter exactly on a load-cap abort, and touches the retained best exactly
when the loop survived and the forwards strictly improved. -/
theorem assignPlayersToFocuses_spec (cfg : PConfig) (st : PState)
    (res : (Nat → ℚ) × Nat) (ok : Bool)
    (h : focusLoop cfg.maxComfortableLoadFactor (trialOwn cfg st.focuses)
          (trialExt cfg st.focuses) (List.range st.focuses.length)
          ((fun i => if i < st.focuses.length then (0 : ℚ)
                     else st.loadFactors i), 0)
        = (res, ok)) :
    (assignPlayersToFocuses cfg st).1.focuses = st.focuses ∧
    (assignPlayersToFocuses cfg st).1.runs = st.runs ∧
    (assignPlayersToFocuses cfg st).1.totalForwards = res.2 ∧
    (assignPlayersToFocuses cfg st).1.failures =
      (if ok = false then st.failures + 1 else st.failures) ∧
    ((assignPlayersToFocuses cfg st).2 = (ok && !(geBest res.2 st.best))) ∧
    ((assignPlayersToFocuses cfg st).1.best =
      (if ok && !(geBest res.2 st.best) then some res.2 else st.best)) := by
  simp only [assignPlayersToFocuses]
  rw [h]
  cases ok with
  | false => exact ⟨rfl, rfl, rfl, rfl, rfl, rfl⟩
  | true =>
    cases hgb : geBest res.2 st.best with
    | false =>
      rw [if_neg (by decide : ¬ (false = true))]
      exact ⟨rfl, rfl, rfl, rfl, rfl, rfl⟩
    | true =>
      rw [if_pos (rfl : (true : Bool) = true)]
      exact ⟨rfl, rfl, rfl, rfl, rfl, rfl⟩

/-- The same characterization lifted through `randomizeFocuses`, which
installs the new focuses and bumps the run counter. -/
theorem randomizeFocuses_spec (cfg : PConfig) (st : PState)
    (fcs : List (Int × Int)) (res : (Nat → ℚ) × Nat) (ok : Bool)
    (h : focusLoop cfg.maxComfortableLoadFactor (trialOwn cfg fcs)
          (trialExt cfg fcs) (List.range fcs.length)
          ((fun i => if i < fcs.length then (0 : ℚ)
                     else st.loadFactors i), 0)
        = (res, ok)) :
    (randomizeFocuses cfg st fcs).1.focuses = fcs ∧
    (randomizeFocuses cfg st fcs).1.runs = st.runs + 1 ∧
    (randomizeFocuses cfg st fcs).1.totalForwards = res.2 ∧
    (randomizeFocuses cfg st fcs).1.failures =
      (if ok = false then st.failures + 1 else st.failures) ∧
    ((randomizeFocuses cfg st fcs).2 = (ok && !(geBest res.2 st.best))) ∧
    ((randomizeFocuses cfg st fcs).1.best =
      (if ok && !(geBest res.2 st.best) then some res.2 else st.best)) := by
  have hspec := assignPlayersToFocuses_spec cfg
    { st with focuses := fcs } res ok h
  obtain ⟨h1, h2, h3, h4, h5, h6⟩ := hspec
  simp only [randomizeFocuses]
  exact ⟨h1, by rw [h2], h3, h4, h5, h6⟩

/-- The per-focus loop aborts exactly when some focus in the list violates
the load cap. -/
theorem focusLoop_false_iff (m : ℚ) (own ext : Nat → List Nat) :
    ∀ (l : List Nat) (lfs : Nat → ℚ) (fwd : Nat),
      ((focusLoop m own ext l (lfs, fwd)).2 = false ↔
        ∃ i ∈ l, m < loadFactorOf (own i).length (ext i).length) := by
  intro l
  induction l with
  | nil =>
    intro lfs fwd
    simp [focusLoop]
  | cons i rest ih =>
    intro lfs fwd
    rw [focusLoop]
    by_cases hv : m < loadFactorOf (own i).length (ext i).length
    · rw [if_pos hv]
      simp only [pair_snd]
      constructor
      · intro _; exact ⟨i, List.mem_cons_self i rest, hv⟩
      · intro _; trivial
    · rw [if_neg hv]
      rw [ih]
      constructor
      · rintro ⟨j, hj, hvj⟩
        exact ⟨j, List.mem_cons_of_mem i hj, hvj⟩
      · rintro ⟨j, hj, hvj⟩
        rcases List.mem_cons.mp hj with rfl | hj'
        · exact absurd hvj hv
        · exact ⟨j, hj', hvj⟩

/-- The abort flag and the forwards total of the per-focus loop do not
depend on the load-factor table it threads through. -/
theorem focusLoop_indep (m : ℚ) (own ext : Nat → List Nat) :
    ∀ (l : List Nat) (lfs lfs' : Nat → ℚ) (fwd : Nat),
      (focusLoop m own ext l (lfs, fwd)).2
        = (focusLoop m own ext l (lfs', fwd)).2 ∧
      (focusLoop m own ext l (lfs, fwd)).1.2
        = (focusLoop m own ext l (lfs', fwd)).1.2 := by
  intro l
  induction l with
  | nil => intro lfs lfs' fwd; exact ⟨rfl, rfl⟩
  | cons i rest ih =>
    intro lfs lfs' fwd
    rw [focusLoop, focusLoop]
    by_cases hv : m < loadFactorOf (own i).length (ext i).length
    · rw [if_pos hv, if_pos hv]
      exact ⟨rfl, rfl⟩
    · rw [if_neg hv, if_neg hv]
      exact ih _ _ _

/-- The single-player example configuration never violates the default load
cap. -/
theorem cfgX_no_violation :
    ¬ (cfgX.maxComfortableLoadFactor < loadFactorOf 1 0) := by
  unfold cfgX MAX_COMFORTABLE_LOAD_FACTOR loadFactorOf
    PROC_TIME_MINE_IN_MICROS PROC_TIME_OTHER_IN_MICROS
    PLAYER_STATE_SEND_FREQ_IN_HZ
  push_cast
  norm_num

/-- Concrete evaluation of the per-focus loop for a one-focus trial of the
single-player example configuration. -/
theorem focusLoopX (f : Int × Int) (lfs : Nat → ℚ)
    (hown : trialOwn cfgX [f] 0 = [0]) (hext : trialExt cfgX [f] 0 = []) :
    focusLoop cfgX.maxComfortableLoadFactor (trialOwn cfgX [f])
      (trialExt cfgX [f]) [0] (lfs, 0)
    = (((fun j => if j = 0 then loadFactorOf 1 0 else lfs j), 0), true) := by
  rw [focusLoop, hown, hext]
  simp only [List.length_cons, List.length_nil, List.length_singleton, Nat.zero_add]
  rw [if_neg cfgX_no_violation, focusLoop]

/-- Concrete assignment facts for the example trials. -/
theorem cfgX_own_one : trialOwn cfgX [((1 : Int), (1 : Int))] 0 = [0] := by decide
theorem cfgX_ext_one : trialExt cfgX [((1 : Int), (1 : Int))] 0 = [] := by decide
theorem cfgX_own_two : trialOwn cfgX [((2 : Int), (2 : Int))] 0 = [0] := by decide
theorem cfgX_ext_two : trialExt cfgX [((2 : Int), (2 : Int))] 0 = [] := by decide

/-- The first example trial is accepted and retains 0 forwards as best. -/
theorem stX1_best : stX1.best = some 0 := by
  have h := focusLoopX (1, 1)
    (fun i => if i < List.length [((1 : Int), (1 : Int))] then (0 : ℚ)
              else initialPState.loadFactors i) cfgX_own_one cfgX_ext_one
  have hs := randomizeFocuses_spec cfgX initialPState [(1, 1)] _ _ h
  show (randomizeFocuses cfgX initialPState [(1, 1)]).1.best = some 0
  rw [hs.2.2.2.2.2]
  rfl

/-- The first example trial installs its focus placement. -/
theorem stX1_focuses : stX1.focuses = [(1, 1)] := by
  have h := focusLoopX (1, 1)
    (fun i => if i < List.length [((1 : Int), (1 : Int))] then (0 : ℚ)
              else initialPState.loadFactors i) cfgX_own_one cfgX_ext_one
  have hs := randomizeFocuses_spec cfgX initialPState [(1, 1)] _ _ h
  show (randomizeFocuses cfgX initialPState [(1, 1)]).1.focuses = [(1, 1)]
  exact hs.1

/-- The second example trial ties on forwards and is therefore rejected. -/
theorem trial2_rejected : (randomizeFocuses cfgX stX1 [(2, 2)]).2 = false := by
  have h := focusLoopX (2, 2)
    (fun i => if i < List.length [((2 : Int), (2 : Int))] then (0 : ℚ)
              else stX1.loadFactors i) cfgX_own_two cfgX_ext_two
  have hs := randomizeFocuses_spec cfgX stX1 [(2, 2)] _ _ h
  rw [hs.2.2.2.2.1, stX1_best]
  rfl

/-- The second (rejected) example trial still overwrites the focus list. -/
theorem trial2_focuses : (randomizeFocuses cfgX stX1 [(2, 2)]).1.focuses = [(2, 2)] := by
  have h := focusLoopX (2, 2)
    (fun i => if i < List.length [((2 : Int), (2 : Int))] then (0 : ℚ)
              else stX1.loadFactors i) cfgX_own_two cfgX_ext_two
  exact (randomizeFocuses_spec cfgX stX1 [(2, 2)] _ _ h).1

/-- Reflexivity of the retained-best order. -/
theorem bestLE_refl (b : Option Nat) : bestLE b b := by
  cases b <;> simp [bestLE]

/-- Transitivity of the retained-best order. -/
theorem bestLE_trans {a b c : Option Nat} (h1 : bestLE a b) (h2 : bestLE b c) :
    bestLE a c := by
  cases c with
  | none => cases a <;> trivial
  | some vc =>
    cases b with
    | none => exact absurd h2 (by simp [bestLE])
    | some vb =>
      cases a with
      | none => exact absurd h1 (by simp [bestLE])
      | some va => exact Nat.le_trans h1 h2

/-- The code's rejection test `geBest` fails exactly on strict improvement. -/
theorem geBest_false_iff (fwd : Nat) (b : Option Nat) :
    geBest fwd b = false ↔ ltBest fwd b := by
  cases b with
  | none => simp [geBest, ltBest]
  | some v => simp [geBest, ltBest, Nat.lt_iff_add_one_le, Nat.not_le]

/-- Eta law for pairs. -/
theorem prod_eta {α β : Type} (p : α × β) : p = (p.1, p.2) := rfl

/-- Claim C10, amended.  A rejected trial leaves the retained best number of
forwards unchanged and bumps the run counter, but it does overwrite the
partitioner's caller-readable focus list (and with it the hull accumulators
and load factors) with the rejected trial's data — the counterexample shows
the original frame claim fails for those fields. -/
theorem C10_rejected_trial_amended (cfg : PConfig) (st : PState)
    (fcs : List (Int × Int))
    (h : (randomizeFocuses cfg st fcs).2 = false) :
    RejectedTrialConcl cfg st fcs := by
  have hs := randomizeFocuses_spec cfg st fcs
    (focusLoop cfg.maxComfortableLoadFactor (trialOwn cfg fcs)
      (trialExt cfg fcs) (List.range fcs.length)
      ((fun i => if i < fcs.length then (0 : ℚ) else st.loadFactors i), 0)).1
    (focusLoop cfg.maxComfortableLoadFactor (trialOwn cfg fcs)
      (trialExt cfg fcs) (List.range fcs.length)
      ((fun i => if i < fcs.length then (0 : ℚ) else st.loadFactors i), 0)).2
    (prod_eta _).symm
  obtain ⟨h1, h2, _, _, h5, h6⟩ := hs
  have hcond := h5.symm.trans h
  refine ⟨?_, h1, h2⟩
  rw [h6, hcond]
  rw [if_neg (by decide : ¬ ((false : Bool) = true))]

/-- Claim C3.  Whenever some computed load factor of a trial exceeds the
comfortable cap, the trial returns "not successful", increments the failure
counter by exactly one, and leaves the retained best unchanged; the
spec-modelled snapshot flag `isWithinComfortableLFThreshold` for the trial's
load factors is false. -/
theorem C3_load_cap_rejection (cfg : PConfig) (st : PState)
    (fcs : List (Int × Int))
    (h : ∃ i, i < fcs.length ∧
      cfg.maxComfortableLoadFactor < trialLoadFactor cfg fcs i) :
    LoadCapConcl cfg st fcs := by
  have hloop : (focusLoop cfg.maxComfortableLoadFactor (trialOwn cfg fcs)
      (trialExt cfg fcs) (List.range fcs.length)
      ((fun i => if i < fcs.length then (0 : ℚ) else st.loadFactors i), 0)).2
      = false := by
    rw [focusLoop_false_iff]
    obtain ⟨i, hi, hv⟩ := h
    exact ⟨i, List.mem_range.mpr hi, hv⟩
  have hs := randomizeFocuses_spec cfg st fcs
    (focusLoop cfg.maxComfortableLoadFactor (trialOwn cfg fcs)
      (trialExt cfg fcs) (List.range fcs.length)
      ((fun i => if i < fcs.length then (0 : ℚ) else st.loadFactors i), 0)).1
    (focusLoop cfg.maxComfortableLoadFactor (trialOwn cfg fcs)
      (trialExt cfg fcs) (List.range fcs.length)
      ((fun i => if i < fcs.length then (0 : ℚ) else st.loadFactors i), 0)).2
    (prod_eta _).symm
  obtain ⟨_, _, _, h4, h5, h6⟩ := hs
  refine ⟨?_, ?_, ?_, ?_⟩
  · rw [h5, hloop, Bool.false_and]
  · rw [h4, hloop]
    rw [if_pos rfl]
  · rw [h6, hloop, Bool.false_and]
    rw [if_neg (by decide : ¬ ((false : Bool) = true))]
  · obtain ⟨i, hi, hv⟩ := h
    simp only [isWithinComfortableLFThreshold, List.all_eq_false]
    refine ⟨trialLoadFactor cfg fcs i,
      List.mem_map_of_mem _ (List.mem_range.mpr hi), ?_⟩
    simp [not_le.mpr hv]

/-- Claim C4.  The retained best number of forwards starts at infinity, is
replaced by a trial's forwards total exactly when that total is strictly
smaller (in which case the trial returns "successful"), is left unchanged by
every "not successful" trial, and is non-increasing across any sequence of
trials. -/
theorem C4_monotone_best (cfg : PConfig) : MonotoneBest cfg := by
  have hmain : ∀ (st : PState) (fcs : List (Int × Int)),
      bestLE (randomizeFocuses cfg st fcs).1.best st.best ∧
      (∀ f, trialForwards cfg fcs = some f →
        ((randomizeFocuses cfg st fcs).2 = true ↔ ltBest f st.best) ∧
        ((randomizeFocuses cfg st fcs).2 = true →
          (randomizeFocuses cfg st fcs).1.best = some f) ∧
        ((randomizeFocuses cfg st fcs).2 = false →
          (randomizeFocuses cfg st fcs).1.best = st.best)) ∧
      (trialForwards cfg fcs = none →
        (randomizeFocuses cfg st fcs).2 = false ∧
        (randomizeFocuses cfg st fcs).1.best = st.best) := by
    intro st fcs
    obtain ⟨res, ok, hR⟩ : ∃ res ok,
        focusLoop cfg.maxComfortableLoadFactor (trialOwn cfg fcs)
          (trialExt cfg fcs) (List.range fcs.length)
          ((fun i => if i < fcs.length then (0 : ℚ)
                     else st.loadFactors i), 0) = (res, ok) :=
      ⟨_, _, (prod_eta _).symm⟩
    obtain ⟨_, _, _, _, h5, h6⟩ := randomizeFocuses_spec cfg st fcs res ok hR
    have hindep := focusLoop_indep cfg.maxComfortableLoadFactor
      (trialOwn cfg fcs) (trialExt cfg fcs) (List.range fcs.length)
      (fun i => if i < fcs.length then (0 : ℚ) else st.loadFactors i)
      (fun _ => (0 : ℚ)) 0
    rw [hR] at hindep
    have hforwards : trialForwards cfg fcs
        = (if ok = true then some res.2 else none) := by
      simp only [trialForwards]
      rw [← hindep.1, ← hindep.2, pair_snd, pair_fst]
    cases ok with
    | false =>
      rw [Bool.false_and] at h5 h6
      rw [if_neg (by decide : ¬ ((false : Bool) = true))] at h6
      rw [if_neg (by decide : ¬ ((false : Bool) = true))] at hforwards
      refine ⟨?_, ?_, ?_⟩
      · rw [h6]; exact bestLE_refl st.best
      · intro f hf
        rw [hforwards] at hf
        exact absurd hf (by simp)
      · intro _
        exact ⟨h5, h6⟩
    | true =>
      rw [Bool.true_and] at h5 h6
      rw [if_pos rfl] at hforwards
      cases hgb : geBest res.2 st.best with
      | true =>
        rw [hgb] at h5 h6
        simp only [Bool.not_true] at h5 h6
        rw [if_neg (by decide : ¬ ((false : Bool) = true))] at h6
        refine ⟨?_, ?_, ?_⟩
        · rw [h6]; exact bestLE_refl st.best
        · intro f hf
          rw [hforwards] at hf
          have hfres : f = res.2 := (Option.some.inj hf).symm
          subst hfres
          refine ⟨?_, ?_, ?_⟩
          · rw [h5]
            constructor
            · intro hfalse; exact absurd hfalse (by decide)
            · intro hlt
              have hcontra := (geBest_false_iff res.2 st.best).mpr hlt
              rw [hgb] at hcontra
              exact absurd hcontra (by decide)
          · intro htrue
            rw [h5] at htrue
            exact absurd htrue (by decide)
          · intro _; exact h6
        · intro hnone
          rw [hforwards] at hnone
          exact absurd hnone (by simp)
      | false =>
        rw [hgb] at h5 h6
        simp only [Bool.not_false] at h5 h6
        simp only [Bool.and_self, if_true] at h6
        have hlt := (geBest_false_iff res.2 st.best).mp hgb
        refine ⟨?_, ?_, ?_⟩
        · rw [h6]
          cases hb : st.best with
          | none => simp [bestLE]
          | some v =>
            rw [hb] at hlt
            exact Nat.le_of_lt hlt
        · intro f hf
          rw [hforwards] at hf
          have hfres : f = res.2 := (Option.some.inj hf).symm
          subst hfres
          refine ⟨?_, ?_, ?_⟩
          · rw [h5]
            constructor
            · intro _; exact hlt
            · intro _; rfl
          · intro _; exact h6
          · intro hfalse
            rw [h5] at hfalse
            exact absurd hfalse (by decide)
        · intro hnone
          rw [hforwards] at hnone
          exact absurd hnone (by simp)
  refine ⟨rfl, ?_, ?_, ?_, ?_, ?_⟩
  · intro fwd b; exact geBest_false_iff fwd b
  · intro st fcs; exact (hmain st fcs).1
  · intro st fcs f hf; exact (hmain st fcs).2.1 f hf
  · intro st fcs hf; exact (hmain st fcs).2.2 hf
  · intro st inputs
    induction inputs generalizing st with
    | nil => exact bestLE_refl st.best
    | cons fcs rest ih =>
      exact bestLE_trans (ih (randomizeFocuses cfg st fcs).1)
        (hmain st fcs).1

/-- Membership in the accumulator after the inner neighbor loop. -/
theorem addNeighbors_mem (own : List Nat) (m : Nat) :
    ∀ (l acc : List Nat),
      (m ∈ addNeighbors own acc l ↔ m ∈ acc ∨ (m ∈ l ∧ m ∉ own)) := by
  intro l
  induction l with
  | nil => intro acc; simp [addNeighbors]
  | cons nb rest ih =>
    intro acc
    rw [addNeighbors]
    rw [ih]
    by_cases hown : nb ∈ own
    · rw [if_pos hown]
      constructor
      · rintro (h | ⟨hm, hno⟩)
        · exact Or.inl h
        · exact Or.inr ⟨List.mem_cons_of_mem nb hm, hno⟩
      · rintro (h | ⟨hm, hno⟩)
        · exact Or.inl h
        · rcases List.mem_cons.mp hm with rfl | hm'
          · exact absurd hown hno
          · exact Or.inr ⟨hm', hno⟩
    · rw [if_neg hown]
      by_cases hacc : nb ∈ acc
      · rw [if_pos hacc]
        constructor
        · rintro (h | ⟨hm, hno⟩)
          · exact Or.inl h
          · exact Or.inr ⟨List.mem_cons_of_mem nb hm, hno⟩
        · rintro (h | ⟨hm, hno⟩)
          · exact Or.inl h
          · rcases List.mem_cons.mp hm with rfl | hm'
            · exact Or.inl hacc
            · exact Or.inr ⟨hm', hno⟩
      · rw [if_neg hacc]
        constructor
        · rintro (h | ⟨hm, hno⟩)
          · rcases List.mem_append.mp h with h' | h'
            · exact Or.inl h'
            · rcases List.mem_singleton.mp h' with rfl
              exact Or.inr ⟨List.mem_cons_self _ _, hown⟩
          · exact Or.inr ⟨List.mem_cons_of_mem nb hm, hno⟩
        · rintro (h | ⟨hm, hno⟩)
          · exact Or.inl (List.mem_append.mpr (Or.inl h))
          · rcases List.mem_cons.mp hm with rfl | hm'
            · exact Or.inl (List.mem_append.mpr (Or.inr (List.mem_singleton.mpr rfl)))
            · exact Or.inr ⟨hm', hno⟩

/-- Membership in the accumulator after the outer interest loop. -/
theorem externalInterestAux_mem (own : List Nat) (nbrs : Nat → List Nat)
    (m : Nat) :
    ∀ (ps acc : List Nat),
      (m ∈ externalInterestAux own nbrs acc ps ↔
        m ∈ acc ∨ ∃ p ∈ ps, m ∈ nbrs p ∧ m ∉ own) := by
  intro ps
  induction ps with
  | nil => intro acc; simp [externalInterestAux]
  | cons p rest ih =>
    intro acc
    rw [externalInterestAux, ih, addNeighbors_mem]
    constructor
    · rintro ((h | ⟨hm, hno⟩) | ⟨q, hq, hmq, hno⟩)
      · exact Or.inl h
      · exact Or.inr ⟨p, List.mem_cons_self p rest, hm, hno⟩
      · exact Or.inr ⟨q, List.mem_cons_of_mem p hq, hmq, hno⟩
    · rintro (h | ⟨q, hq, hmq, hno⟩)
      · exact Or.inl (Or.inl h)
      · rcases List.mem_cons.mp hq with rfl | hq'
        · exact Or.inl (Or.inr ⟨hmq, hno⟩)
        · exact Or.inr ⟨q, hq', hmq, hno⟩

/-- A player is in the derived external interest set exactly when it is
outside the own-set and a neighbor of some own player. -/
theorem externalInterestOf_mem (own : List Nat) (nbrs : Nat → List Nat)
    (m : Nat) :
    m ∈ externalInterestOf own nbrs ↔
      (m ∉ own ∧ ∃ p ∈ own, m ∈ nbrs p) := by
  unfold externalInterestOf
  rw [externalInterestAux_mem]
  constructor
  · rintro (h | ⟨p, hp, hmp, hno⟩)
    · exact absurd h (List.not_mem_nil m)
    · exact ⟨hno, p, hp, hmp⟩
  · rintro ⟨hno, p, hp, hmp⟩
    exact Or.inr ⟨p, hp, hmp, hno⟩

/-- Claim C5.  For every focus of every trial, a player is in the derived
external interest set exactly when it is not an own player of that focus and
appears in the precomputed neighbor list of some own player; in particular
the external interest set is disjoint from the own-set. -/
theorem C5_external_interest_sound (cfg : PConfig)
    (focuses : List (Int × Int)) (i n : Nat) :
    ExtInterestConcl cfg focuses i n := by
  unfold ExtInterestConcl trialExt
  rw [externalInterestOf_mem]
  exact ⟨Iff.rfl, fun h => h.1⟩

/-- Witness for claim C5 at a concrete instance. -/
theorem C5_external_interest_witness : ExtInterestConcl cfgX [(1, 1)] 0 0 :=
  C5_external_interest_sound cfgX [(1, 1)] 0 0

/-- The assignment scan equals a first-strict-minimum scan over the list of
squared distances. -/
theorem closestFocusAux_eq_selectMin (p : Int × Int) :
    ∀ (fs : List (Int × Int)) (fi : Nat) (b : Nat × Int),
      closestFocusAux p fs fi (some b)
        = some (selectMin fi b (fs.map (fun f =>
            GridSpatialIndex.euclideanDistanceSquared p.1 p.2 f.1 f.2))) := by
  intro fs
  induction fs with
  | nil => intro fi b; rfl
  | cons f rest ih =>
    intro fi b
    obtain ⟨bi, bd⟩ := b
    simp only [closestFocusAux, List.map_cons, selectMin]
    by_cases hd :
        GridSpatialIndex.euclideanDistanceSquared p.1 p.2 f.1 f.2 < bd
    · rw [if_pos hd, if_pos hd, ih]
    · rw [if_neg hd, if_neg hd, ih]

/-- Characterization of the first-strict-minimum scan: it returns either its
starting best (when nothing beats it strictly) or the first entry that is
minimal overall and strictly below the starting best and everything before
it. -/
theorem selectMin_spec :
    ∀ (ds : List Int) (fi : Nat) (b : Nat × Int),
      (selectMin fi b ds = b ∧ ∀ k, k < ds.length → b.2 ≤ ds.getD k 0) ∨
      (∃ k, k < ds.length ∧ selectMin fi b ds = (fi + k, ds.getD k 0) ∧
        ds.getD k 0 < b.2 ∧
        (∀ j, j < ds.length → ds.getD k 0 ≤ ds.getD j 0) ∧
        (∀ j, j < k → ds.getD k 0 < ds.getD j 0)) := by
  intro ds
  induction ds with
  | nil =>
    intro fi b
    exact Or.inl ⟨rfl, fun k hk => absurd hk (by simp)⟩
  | cons d ds ih =>
    intro fi b
    rw [selectMin]
    by_cases hd : d < b.2
    · rw [if_pos hd]
      rcases ih (fi + 1) (fi, d) with ⟨hsel, hall⟩ | ⟨k, hk, hsel, hlt, hall, hstrict⟩
      · refine Or.inr ⟨0, by simp, ?_, ?_, ?_, ?_⟩
        · rw [hsel, List.getD_cons_zero, Nat.add_zero]
        · rw [List.getD_cons_zero]; exact hd
        · intro j hj
          rw [List.getD_cons_zero]
          match j with
          | 0 => rw [List.getD_cons_zero]
          | j + 1 =>
            rw [List.getD_cons_succ]
            exact hall j (by simpa using hj)
        · intro j hj; exact absurd hj (Nat.not_lt_zero j)
      · refine Or.inr ⟨k + 1, by simpa using hk, ?_, ?_, ?_, ?_⟩
        · rw [hsel, List.getD_cons_succ]
          have hfi : fi + 1 + k = fi + (k + 1) := by omega
          rw [hfi]
        · rw [List.getD_cons_succ]
          exact lt_trans hlt hd
        · intro j hj
          rw [List.getD_cons_succ]
          match j with
          | 0 =>
            rw [List.getD_cons_zero]
            exact le_of_lt hlt
          | j + 1 =>
            rw [List.getD_cons_succ]
            exact hall j (by simpa using hj)
        · intro j hj
          rw [List.getD_cons_succ]
          match j with
          | 0 =>
            rw [List.getD_cons_zero]
            exact hlt
          | j + 1 =>
            rw [List.getD_cons_succ]
            exact hstrict j (by omega)
    · rw [if_neg hd]
      have hge : b.2 ≤ d := not_lt.mp hd
      rcases ih (fi + 1) b with ⟨hsel, hall⟩ | ⟨k, hk, hsel, hlt, hall, hstrict⟩
      · refine Or.inl ⟨hsel, ?_⟩
        intro k hk
        match k with
        | 0 => rw [List.getD_cons_zero]; exact hge
        | k + 1 =>
          rw [List.getD_cons_succ]
          exact hall k (by simpa using hk)
      · refine Or.inr ⟨k + 1, by simpa using hk, ?_, ?_, ?_, ?_⟩
        · rw [hsel, List.getD_cons_succ]
          have hfi : fi + 1 + k = fi + (k + 1) := by omega
          rw [hfi]
        · rw [List.getD_cons_succ]; exact hlt
        · intro j hj
          rw [List.getD_cons_succ]
          match j with
          | 0 =>
            rw [List.getD_cons_zero]
            exact le_of_lt (lt_of_lt_of_le hlt hge)
          | j + 1 =>
            rw [List.getD_cons_succ]
            exact hall j (by simpa using hj)
        · intro j hj
          rw [List.getD_cons_succ]
          match j with
          | 0 =>
            rw [List.getD_cons_zero]
            exact lt_of_lt_of_le hlt hge
          | j + 1 =>
            rw [List.getD_cons_succ]
            exact hstrict j (by omega)

/-- Distances read through the mapped list. -/
theorem getD_map_dist (p : Int × Int) (fs : List (Int × Int)) (j : Nat)
    (hj : j < fs.length) :
    (fs.map (fun f =>
        GridSpatialIndex.euclideanDistanceSquared p.1 p.2 f.1 f.2)).getD j 0
      = GridSpatialIndex.euclideanDistanceSquared p.1 p.2
          (fs.getD j (0, 0)).1 (fs.getD j (0, 0)).2 := by
  rw [List.getD_eq_getElem?_getD, List.getD_eq_getElem?_getD,
    List.getElem?_map, List.getElem?_eq_getElem hj]
  rfl

/-- Unfolding lemma for the spec-side distance. -/
theorem distTo_cons_succ (f : Int × Int) (fs : List (Int × Int))
    (p : Int × Int) (j : Nat) :
    distTo (f :: fs) p (j + 1) = distTo fs p j := rfl

/-- Unfolding lemma for the spec-side distance. -/
theorem distTo_cons_zero (f : Int × Int) (fs : List (Int × Int))
    (p : Int × Int) :
    distTo (f :: fs) p 0
      = GridSpatialIndex.euclideanDistanceSquared p.1 p.2 f.1 f.2 := rfl

/-- With at least one focus, the assignment scan picks exactly the lowest
index among the focuses at minimal squared distance. -/
theorem closestFocus_argmin (focuses : List (Int × Int)) (p : Int × Int)
    (h : focuses ≠ []) :
    ∃ i, closestFocus focuses p = some i ∧ IsArgminLowest focuses p i := by
  match focuses, h with
  | f :: fs, _ =>
    have heq : closestFocus (f :: fs) p
        = (closestFocusAux p fs 1
            (some (0, GridSpatialIndex.euclideanDistanceSquared
              p.1 p.2 f.1 f.2))).map Prod.fst := rfl
    rw [heq, closestFocusAux_eq_selectMin]
    have hdist : ∀ j, j < fs.length →
        (fs.map (fun f0 =>
          GridSpatialIndex.euclideanDistanceSquared p.1 p.2 f0.1 f0.2)).getD j 0
          = distTo (f :: fs) p (j + 1) := by
      intro j hj
      rw [getD_map_dist p fs j hj]
      rfl
    rcases selectMin_spec
        (fs.map (fun f0 =>
          GridSpatialIndex.euclideanDistanceSquared p.1 p.2 f0.1 f0.2)) 1
        (0, GridSpatialIndex.euclideanDistanceSquared p.1 p.2 f.1 f.2)
      with ⟨hsel, hall⟩ | ⟨k, hk, hsel, hlt, hall, hstrict⟩
    · refine ⟨0, by rw [hsel]; rfl, by simp, ?_, ?_⟩
      · intro j hj
        match j with
        | 0 => exact le_refl _
        | j + 1 =>
          rw [distTo_cons_zero, distTo_cons_succ]
          have hj' : j < fs.length := by simpa using hj
          have := hall j (by simpa using hj')
          rw [hdist j hj'] at this
          rw [distTo_cons_succ] at this
          exact this
      · intro j hj; exact absurd hj (Nat.not_lt_zero j)
    · rw [List.length_map] at hk
      have hksucc : (1 + k) = k + 1 := by omega
      refine ⟨1 + k, by rw [hsel]; rfl, ?_, ?_, ?_⟩
      · rw [hksucc]
        simpa using hk
      · intro j hj
        have hdk : distTo (f :: fs) p (1 + k)
            = (fs.map (fun f0 =>
                GridSpatialIndex.euclideanDistanceSquared p.1 p.2
                  f0.1 f0.2)).getD k 0 := by
          rw [hksucc, ← hdist k hk]
        rw [hdk]
        match j with
        | 0 =>
          rw [distTo_cons_zero]
          exact le_of_lt hlt
        | j + 1 =>
          have hj' : j < fs.length := by simpa using hj
          have := hall j (by simpa using hj')
          rw [hdist j hj'] at this
          exact this
      · intro j hj
        have hdk : distTo (f :: fs) p (1 + k)
            = (fs.map (fun f0 =>
                GridSpatialIndex.euclideanDistanceSquared p.1 p.2
                  f0.1 f0.2)).getD k 0 := by
          rw [hksucc, ← hdist k hk]
        rw [hdk]
        match j with
        | 0 =>
          rw [distTo_cons_zero]
          exact hlt
        | j + 1 =>
          have hj' : j < k := by omega
          have := hstrict j hj'
          rw [hdist j (by omega)] at this
          exact this

/-- Membership in the own-sets built by the assignment loop. -/
theorem assignPlayersAux_mem (focuses : List (Int × Int))
    (hF : focuses ≠ []) (m i : Nat) :
    ∀ (ps : List (Int × Int)) (n0 : Nat) (own : Nat → List Nat),
      (m ∈ assignPlayersAux focuses ps n0 own i ↔
        m ∈ own i ∨ ∃ k, k < ps.length ∧ m = n0 + k ∧
          closestFocus focuses (ps.getD k (0, 0)) = some i) := by
  intro ps
  induction ps with
  | nil =>
    intro n0 own
    simp [assignPlayersAux]
  | cons p rest ih =>
    intro n0 own
    obtain ⟨c, hc, _⟩ := closestFocus_argmin focuses p hF
    rw [assignPlayersAux, hc, ih]
    constructor
    · rintro (hmem | ⟨k, hk, rfl, hck⟩)
      · by_cases hic : i = c
        · subst hic
          rw [if_pos rfl] at hmem
          rcases List.mem_append.mp hmem with hmem' | hmem'
          · exact Or.inl hmem'
          · rcases List.mem_singleton.mp hmem' with rfl
            exact Or.inr ⟨0, by simp, by omega, by rw [List.getD_cons_zero]; exact hc⟩
        · rw [if_neg hic] at hmem
          exact Or.inl hmem
      · exact Or.inr ⟨k + 1, by simpa using hk, by omega,
          by rw [List.getD_cons_succ]; exact hck⟩
    · rintro (hmem | ⟨k, hk, rfl, hck⟩)
      · refine Or.inl ?_
        by_cases hic : i = c
        · subst hic
          rw [if_pos rfl]
          exact List.mem_append.mpr (Or.inl hmem)
        · rw [if_neg hic]
          exact hmem
      · match k with
        | 0 =>
          rw [List.getD_cons_zero] at hck
          have hci : c = i := Option.some.inj (hc.symm.trans hck)
          subst hci
          refine Or.inl ?_
          rw [if_pos rfl]
          refine List.mem_append.mpr (Or.inr ?_)
          simp [Nat.add_zero]
        | k + 1 =>
          rw [List.getD_cons_succ] at hck
          exact Or.inr ⟨k, by simpa using hk, by omega, hck⟩

/-- A player is in the own-set of focus `i` exactly when it is a valid index
whose closest focus is `i`. -/
theorem assignPlayers_mem (focuses positions : List (Int × Int))
    (hF : focuses ≠ []) (m i : Nat) :
    m ∈ assignPlayers focuses positions i ↔
      m < positions.length ∧
        closestFocus focuses (positions.getD m (0, 0)) = some i := by
  unfold assignPlayers
  rw [assignPlayersAux_mem focuses hF]
  constructor
  · rintro (hmem | ⟨k, hk, rfl, hck⟩)
    · simp at hmem
    · rw [Nat.zero_add]
      exact ⟨hk, hck⟩
  · rintro ⟨hm, hc⟩
    exact Or.inr ⟨m, hm, (Nat.zero_add m).symm, hc⟩

/-- Claim C2.  With at least one focus, the own-sets built by the assignment
loop partition the player indices: every player lands in exactly one set,
and membership is exactly lowest-index minimization of the squared Euclidean
distance to the focuses. -/
theorem C2_assignment_partition (focuses positions : List (Int × Int))
    (hF : focuses ≠ []) : PartitionHolds focuses positions := by
  constructor
  · intro n hn
    obtain ⟨c, hc, harg⟩ :=
      closestFocus_argmin focuses (positions.getD n (0, 0)) hF
    refine ⟨c, harg.1, ?_, ?_⟩
    · exact (assignPlayers_mem focuses positions hF n c).mpr ⟨hn, hc⟩
    · intro j hj
      have := (assignPlayers_mem focuses positions hF n j).mp hj
      exact Option.some.inj (this.2.symm.trans hc)
  · intro i n hmem
    have h := (assignPlayers_mem focuses positions hF n i).mp hmem
    obtain ⟨c, hc, harg⟩ :=
      closestFocus_argmin focuses (positions.getD n (0, 0)) hF
    have hci : c = i := Option.some.inj (hc.symm.trans h.2)
    subst hci
    exact ⟨h.1, harg⟩

/-- Witness for claim C2 at a concrete instance. -/
theorem C2_assignment_partition_witness :
    ([((0 : Int), (0 : Int))] ≠ []) ∧
      PartitionHolds [((0 : Int), (0 : Int))] [((5 : Int), (5 : Int))] :=
  ⟨by decide, C2_assignment_partition _ _ (by decide)⟩

/-- A coordinate strictly inside the board lands strictly inside the ceiling
division. -/
theorem div_lt_ceilDiv (s w x : Nat) (hs : 0 < s) (hx : x < w) :
    x / s < (w + s - 1) / s := by
  have h1 : w + s - 1 = (w - 1) + s := by omega
  rw [h1, Nat.add_div_right _ hs]
  exact Nat.lt_succ_of_le (Nat.div_le_div_right (by omega))

/-- In-bounds coordinates always map to a cell index inside the cell
array. -/
theorem inBounds_cellIndex (g : Grid) (x y : Nat)
    (hx : x < g.width) (hy : y < g.height) :
    positionToCellIndex g x y < totalCellCount g := by
  have hs : 0 < cellSize g := Nat.pos_pow_of_pos g.cellSizeExponent (by omega)
  have hcol : x >>> g.cellSizeExponent < widthInCells g := by
    rw [Nat.shiftRight_eq_div_pow]
    exact div_lt_ceilDiv (cellSize g) g.width x hs hx
  have hrow : y >>> g.cellSizeExponent < heightInCells g := by
    rw [Nat.shiftRight_eq_div_pow]
    exact div_lt_ceilDiv (cellSize g) g.height y hs hy
  unfold positionToCellIndex totalCellCount
  calc (y >>> g.cellSizeExponent) * widthInCells g + (x >>> g.cellSizeExponent)
      < ((y >>> g.cellSizeExponent) + 1) * widthInCells g := by
        rw [Nat.succ_mul]; omega
    _ ≤ heightInCells g * widthInCells g :=
        Nat.mul_le_mul_right _ (Nat.succ_le_of_lt hrow)
    _ = widthInCells g * heightInCells g := Nat.mul_comm _ _

/-- An insert whose computed cell index is in range always succeeds. -/
theorem insert_isOk_of_lt (g : Grid) (s : IndexState) (k x y : Nat)
    (hlt : positionToCellIndex g x y < totalCellCount g) :
    exceptIsOk (insert g s k x y) = true := by
  simp only [GridSpatialIndex.insert]
  rw [if_pos hlt]
  rcases hE : lookupEntry s k with _ | e0
  · rfl
  · dsimp only
    by_cases hne : e0.cellIdx ≠ positionToCellIndex g x y
    · rw [if_pos hne]; rfl
    · rw [if_neg hne]; rfl

/-- Claim C8, amended.  `insert` fails exactly when the computed cell index
`(y >>> e) * widthInCells + (x >>> e)` falls outside the cell array — not
exactly when `(x, y)` is outside `[0, width) × [0, height)`: every in-bounds
coordinate succeeds, but as the counterexample shows some out-of-bounds
coordinates succeed as well (a throwing insert mutates nothing, as the
functional embedding makes explicit). -/
theorem C8_insert_bounds_amended (g : Grid) (s : IndexState) (k x y : Nat) :
    InsertBoundsConcl g s k x y := by
  constructor
  · by_cases hlt : positionToCellIndex g x y < totalCellCount g
    · rw [insert_isOk_of_lt g s k x y hlt]
      constructor
      · intro h; exact absurd h (by decide)
      · intro h; exact absurd h (by omega)
    · simp only [GridSpatialIndex.insert]
      rw [if_neg hlt]
      constructor
      · intro _; omega
      · intro _; rfl
  · intro hx hy
    exact insert_isOk_of_lt g s k x y (inBounds_cellIndex g x y hx hy)

/-- Witness for claim C8 at a concrete in-bounds insert. -/
theorem C8_insert_bounds_witness :
    (1 < gB.width) ∧ InsertBoundsConcl gB emptyIndex 9 1 1 :=
  ⟨by decide, C8_insert_bounds_amended gB emptyIndex 9 1 1⟩

/-- A failed lookup means no entry carries the key. -/
theorem lookupEntry_none (s : IndexState) (k : Nat)
    (h : lookupEntry s k = none) : ∀ e ∈ s.byKey, e.key ≠ k := by
  intro e he
  have := List.find?_eq_none.mp h e he
  simpa using this

/-- A successful lookup returns an entry of the map with the key. -/
theorem lookupEntry_some (s : IndexState) (k : Nat) (e : CellEntry)
    (h : lookupEntry s k = some e) : e ∈ s.byKey ∧ e.key = k := by
  refine ⟨List.mem_of_find?_eq_some h, ?_⟩
  have := List.find?_some h
  simpa using this

/-- In a well-formed state, entries are determined by their keys. -/
theorem WF_key_inj (s : IndexState) (hWF : WF s) :
    ∀ e1 ∈ s.byKey, ∀ e2 ∈ s.byKey, e1.key = e2.key → e1 = e2 :=
  fun _ h1 _ h2 heq => List.inj_on_of_nodup_map hWF.1 h1 h2 heq

/-- In a well-formed state, an unmapped key is in no cell. -/
theorem WF_not_mem_of_none (s : IndexState) (hWF : WF s) (k : Nat)
    (h : lookupEntry s k = none) : ∀ j, k ∉ s.cells j := by
  intro j hmem
  obtain ⟨e, he, hek, _⟩ := (hWF.2.2 j k).mp hmem
  exact lookupEntry_none s k h e he hek

/-- In a well-formed state, a mapped key is exactly in the cell its entry
points to. -/
theorem WF_mem_iff_of_some (s : IndexState) (hWF : WF s) (k : Nat)
    (e : CellEntry) (h : lookupEntry s k = some e) :
    ∀ j, (k ∈ s.cells j ↔ j = e.cellIdx) := by
  intro j
  constructor
  · intro hmem
    obtain ⟨e', he', he'k, he'c⟩ := (hWF.2.2 j k).mp hmem
    have hee : e' = e := WF_key_inj s hWF e' he' e (lookupEntry_some s k e h).1
      (by rw [he'k, (lookupEntry_some s k e h).2])
    rw [← he'c, hee]
  · rintro rfl
    exact (hWF.2.2 e.cellIdx k).mpr
      ⟨e, (lookupEntry_some s k e h).1, (lookupEntry_some s k e h).2, rfl⟩

/-- Case analysis of a successful insert: fresh entry, moved entry, or
entry already in the target cell. -/
theorem insert_ok_cases (g : Grid) (s : IndexState) (k x y : Nat)
    (s' : IndexState) (b : Bool)
    (h : insert g s k x y = Except.ok (s', b)) :
    (lookupEntry s k = none ∧
      s'.cells = (fun j => if j = positionToCellIndex g x y
                           then s.cells j ++ [k] else s.cells j) ∧
      s'.byKey = s.byKey ++ [{ key := k, x := x, y := y,
                               cellIdx := positionToCellIndex g x y }]) ∨
    (∃ e0, lookupEntry s k = some e0 ∧
      e0.cellIdx ≠ positionToCellIndex g x y ∧
      s'.cells = (fun j => if j = e0.cellIdx then (s.cells j).erase k
                 else if j = positionToCellIndex g x y
                 then s.cells j ++ [k] else s.cells j) ∧
      s'.byKey = s.byKey.map (fun e =>
        if e.key = k then { e with cellIdx := positionToCellIndex g x y }
        else e)) ∨
    (∃ e0, lookupEntry s k = some e0 ∧
      e0.cellIdx = positionToCellIndex g x y ∧ s' = s) := by
  simp only [GridSpatialIndex.insert] at h
  by_cases hlt : positionToCellIndex g x y < totalCellCount g
  · rw [if_pos hlt] at h
    rcases hE : lookupEntry s k with _ | e0 <;> rw [hE] at h <;> dsimp only at h
    · rw [Except.ok.injEq, Prod.mk.injEq] at h
      refine Or.inl ⟨rfl, ?_, ?_⟩
      · rw [← h.1]
      · rw [← h.1]
    · by_cases hne : e0.cellIdx ≠ positionToCellIndex g x y
      · rw [if_pos hne] at h
        rw [Except.ok.injEq, Prod.mk.injEq] at h
        refine Or.inr (Or.inl ⟨e0, rfl, hne, ?_, ?_⟩)
        · rw [← h.1]
        · rw [← h.1]
      · rw [if_neg hne] at h
        rw [Except.ok.injEq, Prod.mk.injEq] at h
        exact Or.inr (Or.inr ⟨e0, rfl, not_not.mp hne, h.1.symm⟩)
  · rw [if_neg hlt] at h
    exact absurd h (by simp)

/-- Case analysis of `remove`. -/
theorem remove_cases (s : IndexState) (k : Nat) :
    ((remove s k).1 = s ∧ lookupEntry s k = none) ∨
    (∃ e0, lookupEntry s k = some e0 ∧
      (remove s k).1.cells = (fun j => if j = e0.cellIdx
          then (s.cells j).erase k else s.cells j) ∧
      (remove s k).1.byKey = s.byKey.filter (fun e => e.key ≠ k)) := by
  unfold remove
  rcases hE : lookupEntry s k with _ | e0
  · exact Or.inl ⟨rfl, rfl⟩
  · exact Or.inr ⟨e0, rfl, rfl, rfl⟩

/-- The fresh index is well-formed. -/
theorem WF_empty : WF emptyIndex := by
  refine ⟨by simp [emptyIndex], fun j => by simp [emptyIndex], ?_⟩
  intro j k
  simp [emptyIndex]

/-- Insertion preserves well-formedness. -/
theorem WF_insert (g : Grid) (s : IndexState) (k x y : Nat)
    (s' : IndexState) (b : Bool) (hWF : WF s)
    (h : insert g s k x y = Except.ok (s', b)) : WF s' := by
  rcases insert_ok_cases g s k x y s' b h with
    ⟨hE, hcells, hbyKey⟩ | ⟨e0, hE, hne, hcells, hbyKey⟩ | ⟨e0, hE, heq, hs⟩
  · -- fresh entry
    have hknotin : k ∉ s.byKey.map CellEntry.key := by
      intro hmem
      obtain ⟨e, he, hek⟩ := List.mem_map.mp hmem
      exact lookupEntry_none s k hE e he hek
    have hcellsj : ∀ j, s'.cells j =
        (if j = positionToCellIndex g x y then s.cells j ++ [k]
         else s.cells j) := by
      intro j; rw [hcells]
    refine ⟨?_, ?_, ?_⟩
    · rw [hbyKey, List.map_append]
      simp only [List.map_cons, List.map_nil]
      exact hWF.1.append (List.nodup_singleton k)
        ((List.disjoint_singleton).mpr hknotin)
    · intro j
      rw [hcellsj j]
      by_cases hj : j = positionToCellIndex g x y
      · rw [if_pos hj]
        exact (hWF.2.1 j).append (List.nodup_singleton k)
          ((List.disjoint_singleton).mpr (WF_not_mem_of_none s hWF k hE j))
      · rw [if_neg hj]
        exact hWF.2.1 j
    · intro j k'
      rw [hcellsj j, hbyKey]
      constructor
      · intro hmem
        by_cases hj : j = positionToCellIndex g x y
        · rw [if_pos hj] at hmem
          rcases List.mem_append.mp hmem with hmem' | hmem'
          · obtain ⟨e, he, hek, hec⟩ := (hWF.2.2 _ k').mp hmem'
            exact ⟨e, List.mem_append.mpr (Or.inl he), hek, hec⟩
          · rcases List.mem_singleton.mp hmem' with rfl
            exact ⟨_, List.mem_append.mpr (Or.inr (List.mem_singleton.mpr rfl)),
              rfl, hj.symm⟩
        · rw [if_neg hj] at hmem
          obtain ⟨e, he, hek, hec⟩ := (hWF.2.2 j k').mp hmem
          exact ⟨e, List.mem_append.mpr (Or.inl he), hek, hec⟩
      · rintro ⟨e, he, hek, hec⟩
        rcases List.mem_append.mp he with he' | he'
        · have hmem := (hWF.2.2 j k').mpr ⟨e, he', hek, hec⟩
          by_cases hj : j = positionToCellIndex g x y
          · rw [if_pos hj]
            exact List.mem_append.mpr (Or.inl hmem)
          · rw [if_neg hj]
            exact hmem
        · rcases List.mem_singleton.mp he' with rfl
          have hj : j = positionToCellIndex g x y := hec.symm
          have hk'' : k' = k := hek.symm
          rw [if_pos hj, hk'']
          exact List.mem_append.mpr (Or.inr (List.mem_singleton.mpr rfl))
  · -- entry moved to a new cell
    obtain ⟨he0mem, he0key⟩ := lookupEntry_some s k e0 hE
    have hkey_repl : ∀ e : CellEntry,
        (if e.key = k then { e with cellIdx := positionToCellIndex g x y }
         else e).key = e.key := by
      intro e
      by_cases he : e.key = k
      · rw [if_pos he]
      · rw [if_neg he]
    have hkeys : s'.byKey.map CellEntry.key = s.byKey.map CellEntry.key := by
      rw [hbyKey, List.map_map]
      exact List.map_congr_left (fun e _ => hkey_repl e)
    have hmemcells : ∀ j, k ∈ s.cells j ↔ j = e0.cellIdx :=
      WF_mem_iff_of_some s hWF k e0 hE
    have hcellsj : ∀ j, s'.cells j =
        (if j = e0.cellIdx then (s.cells j).erase k
         else if j = positionToCellIndex g x y then s.cells j ++ [k]
         else s.cells j) := by
      intro j; rw [hcells]
    refine ⟨?_, ?_, ?_⟩
    · rw [hkeys]; exact hWF.1
    · intro j
      rw [hcellsj j]
      by_cases hj : j = e0.cellIdx
      · rw [if_pos hj]
        exact (hWF.2.1 j).erase k
      · rw [if_neg hj]
        by_cases hj' : j = positionToCellIndex g x y
        · rw [if_pos hj']
          refine (hWF.2.1 j).append (List.nodup_singleton k)
            ((List.disjoint_singleton).mpr ?_)
          intro hmem
          exact hj ((hmemcells j).mp hmem)
        · rw [if_neg hj']
          exact hWF.2.1 j
    · intro j k'
      rw [hcellsj j, hbyKey]
      have hbk_mem : ∀ e' : CellEntry,
          (e' ∈ s.byKey.map (fun e =>
            if e.key = k then { e with cellIdx := positionToCellIndex g x y }
            else e) ∧ e'.key = k' ∧ e'.cellIdx = j) ↔
          (if k' = k
           then j = positionToCellIndex g x y ∧
             e' = { e0 with cellIdx := positionToCellIndex g x y }
           else e' ∈ s.byKey ∧ e'.key = k' ∧ e'.cellIdx = j) := by
        intro e'
        by_cases hk' : k' = k
        · rw [if_pos hk']
          constructor
          · rintro ⟨hmem, hek, hec⟩
            obtain ⟨e, he, hrepl⟩ := List.mem_map.mp hmem
            by_cases hek0 : e.key = k
            · rw [if_pos hek0] at hrepl
              have : e = e0 := WF_key_inj s hWF e he e0 he0mem
                (by rw [hek0, he0key])
              subst this
              rw [← hrepl] at hec ⊢
              exact ⟨hec.symm, rfl⟩
            · rw [if_neg hek0] at hrepl
              refine absurd ?_ hek0
              rw [hrepl, hek]
              exact hk'
          · rintro ⟨hj, rfl⟩
            refine ⟨List.mem_map.mpr ⟨e0, he0mem, by rw [if_pos he0key]⟩,
              by rw [hk']; exact he0key, hj.symm⟩
        · rw [if_neg hk']
          constructor
          · rintro ⟨hmem, hek, hec⟩
            obtain ⟨e, he, hrepl⟩ := List.mem_map.mp hmem
            by_cases hek0 : e.key = k
            · rw [if_pos hek0] at hrepl
              refine absurd ?_ hk'
              rw [← hek, ← hrepl]
              exact hek0
            · rw [if_neg hek0] at hrepl
              subst hrepl
              exact ⟨he, hek, hec⟩
          · rintro ⟨he, hek, hec⟩
            have hek0 : e'.key ≠ k := by rw [hek]; exact hk'
            exact ⟨List.mem_map.mpr ⟨e', he, by rw [if_neg hek0]⟩, hek, hec⟩
      constructor
      · intro hmem
        by_cases hk' : k' = k
        · subst hk'
          have hjci : j = positionToCellIndex g x y := by
            by_cases hj : j = e0.cellIdx
            · rw [if_pos hj] at hmem
              exact absurd ((hWF.2.1 j).mem_erase_iff.mp hmem).1 (by simp)
            · rw [if_neg hj] at hmem
              by_cases hj' : j = positionToCellIndex g x y
              · exact hj'
              · rw [if_neg hj'] at hmem
                exact absurd ((hmemcells j).mp hmem) hj
          refine ⟨{ e0 with cellIdx := positionToCellIndex g x y }, ?_, ?_, ?_⟩
          · exact List.mem_map.mpr ⟨e0, he0mem, by rw [if_pos he0key]⟩
          · exact he0key
          · rw [hjci]
        · have hmem' : k' ∈ s.cells j := by
            by_cases hj : j = e0.cellIdx
            · rw [if_pos hj] at hmem
              exact ((hWF.2.1 j).mem_erase_iff.mp hmem).2
            · rw [if_neg hj] at hmem
              by_cases hj' : j = positionToCellIndex g x y
              · rw [if_pos hj'] at hmem
                rcases List.mem_append.mp hmem with hmem'' | hmem''
                · exact hmem''
                · exact absurd (List.mem_singleton.mp hmem'') hk'
              · rw [if_neg hj'] at hmem
                exact hmem
          obtain ⟨e, he, hek, hec⟩ := (hWF.2.2 j k').mp hmem'
          refine ⟨e, ?_, hek, hec⟩
          have hek0 : e.key ≠ k := by rw [hek]; exact hk'
          exact List.mem_map.mpr ⟨e, he, by rw [if_neg hek0]⟩
      · rintro ⟨e', hmem, hek, hec⟩
        by_cases hk' : k' = k
        · have := (hbk_mem e').mp ⟨hmem, hek, hec⟩
          rw [if_pos hk'] at this
          obtain ⟨hjci, rfl⟩ := this
          subst hk'
          rw [if_neg (by rw [hjci]; exact (Ne.symm hne))]
          rw [if_pos hjci]
          exact List.mem_append.mpr (Or.inr (List.mem_singleton.mpr rfl))
        · have := (hbk_mem e').mp ⟨hmem, hek, hec⟩
          rw [if_neg hk'] at this
          obtain ⟨he, hek', hec'⟩ := this
          have hold : k' ∈ s.cells j := (hWF.2.2 j k').mpr ⟨e', he, hek', hec'⟩
          by_cases hj : j = e0.cellIdx
          · rw [if_pos hj]
            exact (hWF.2.1 j).mem_erase_iff.mpr ⟨hk', hold⟩
          · rw [if_neg hj]
            by_cases hj' : j = positionToCellIndex g x y
            · rw [if_pos hj']
              exact List.mem_append.mpr (Or.inl hold)
            · rw [if_neg hj']
              exact hold
  · -- key already in the target cell
    rw [hs]
    exact hWF

/-- Removal preserves well-formedness. -/
theorem WF_remove (s : IndexState) (k : Nat) (hWF : WF s) :
    WF (remove s k).1 := by
  rcases remove_cases s k with ⟨hs, _⟩ | ⟨e0, hE, hcells, hbyKey⟩
  · rw [hs]; exact hWF
  · obtain ⟨he0mem, he0key⟩ := lookupEntry_some s k e0 hE
    have hcellsj : ∀ j, (remove s k).1.cells j =
        (if j = e0.cellIdx then (s.cells j).erase k else s.cells j) := by
      intro j; rw [hcells]
    refine ⟨?_, ?_, ?_⟩
    · rw [hbyKey]
      exact hWF.1.sublist ((List.filter_sublist s.byKey).map CellEntry.key)
    · intro j
      rw [hcellsj j]
      by_cases hj : j = e0.cellIdx
      · rw [if_pos hj]; exact (hWF.2.1 j).erase k
      · rw [if_neg hj]; exact hWF.2.1 j
    · intro j k'
      rw [hcellsj j, hbyKey]
      constructor
      · intro hmem
        have hk' : k' ≠ k := by
          intro hkk
          subst hkk
          by_cases hj : j = e0.cellIdx
          · rw [if_pos hj] at hmem
            exact absurd ((hWF.2.1 j).mem_erase_iff.mp hmem).1 (by simp)
          · rw [if_neg hj] at hmem
            exact hj ((WF_mem_iff_of_some s hWF k' e0 hE j).mp hmem)
        have hmem' : k' ∈ s.cells j := by
          by_cases hj : j = e0.cellIdx
          · rw [if_pos hj] at hmem
            exact ((hWF.2.1 j).mem_erase_iff.mp hmem).2
          · rw [if_neg hj] at hmem
            exact hmem
        obtain ⟨e, he, hek, hec⟩ := (hWF.2.2 j k').mp hmem'
        refine ⟨e, ?_, hek, hec⟩
        refine List.mem_filter.mpr ⟨he, ?_⟩
        simp only [decide_eq_true_eq]
        rw [hek]
        exact hk'
      · rintro ⟨e, he, hek, hec⟩
        obtain ⟨he', hkeep⟩ := List.mem_filter.mp he
        have hk' : k' ≠ k := by
          simp only [decide_eq_true_eq] at hkeep
          rw [← hek]
          exact hkeep
        have hmem := (hWF.2.2 j k').mpr ⟨e, he', hek, hec⟩
        by_cases hj : j = e0.cellIdx
        · rw [if_pos hj]
          exact (hWF.2.1 j).mem_erase_iff.mpr ⟨hk', hmem⟩
        · rw [if_neg hj]
          exact hmem

/-- Every operation preserves well-formedness. -/
theorem WF_applyOp (g : Grid) (s : IndexState) (op : GridOp) (hWF : WF s) :
    WF (applyOp g s op) := by
  cases op with
  | ins k x y =>
    have heq : applyOp g s (GridOp.ins k x y) =
        (match insert g s k x y with
         | Except.ok (s', _) => s'
         | Except.error _ => s) := rfl
    rw [heq]
    rcases hI : insert g s k x y with e | ⟨s', b⟩
    · exact hWF
    · exact WF_insert g s k x y s' b hWF hI
  | rem k => exact WF_remove s k hWF

/-- Every reachable index state is well-formed. -/
theorem WF_runOps (g : Grid) (ops : List GridOp) : WF (runOps g ops) := by
  unfold runOps
  have hgen : ∀ (l : List GridOp) (s : IndexState), WF s →
      WF (l.foldl (applyOp g) s) := by
    intro l
    induction l with
    | nil => intro s hs; exact hs
    | cons op rest ih =>
      intro s hs
      exact ih (applyOp g s op) (WF_applyOp g s op hs)
  exact hgen ops emptyIndex WF_empty

/-- Lookup in an appended list skips a first part without a match. -/
theorem find?_append_of_none {p : CellEntry → Bool}
    (l1 l2 : List CellEntry) (h : l1.find? p = none) :
    (l1 ++ l2).find? p = l2.find? p := by
  rw [List.find?_append, h]
  rfl

/-- Lookup commutes with the key-preserving cell-pointer replacement. -/
theorem find?_map_repl (bk : List CellEntry) (k ci : Nat) :
    (bk.map (fun e => if e.key = k then { e with cellIdx := ci } else e)).find?
        (fun e => e.key = k)
      = (bk.find? (fun e => e.key = k)).map
          (fun e => { e with cellIdx := ci }) := by
  induction bk with
  | nil => rfl
  | cons e rest ih =>
    by_cases he : e.key = k
    · rw [List.map_cons, if_pos he]
      rw [List.find?_cons_of_pos _ (by simp [he]),
        List.find?_cons_of_pos _ (by simp [he])]
      rfl
    · rw [List.map_cons, if_neg he]
      rw [List.find?_cons_of_neg _ (by simp [he]),
        List.find?_cons_of_neg _ (by simp [he])]
      exact ih

/-- The entry found for the key after a successful insert: a fresh entry
carries the inserted coordinates; an updated entry keeps its original
coordinates and only its cell pointer changes. -/
theorem insert_lookup (g : Grid) (s : IndexState) (k x y : Nat)
    (s' : IndexState) (b : Bool)
    (h : insert g s k x y = Except.ok (s', b)) :
    (lookupEntry s k = none ∧
      lookupEntry s' k
        = some ({ key := k, x := x, y := y,
                  cellIdx := positionToCellIndex g x y })) ∨
    (∃ e0, lookupEntry s k = some e0 ∧
      lookupEntry s' k
        = some ({ e0 with cellIdx := positionToCellIndex g x y })) := by
  rcases insert_ok_cases g s k x y s' b h with
    ⟨hE, _, hbyKey⟩ | ⟨e0, hE, _, _, hbyKey⟩ | ⟨e0, hE, heq, hs⟩
  · refine Or.inl ⟨hE, ?_⟩
    unfold lookupEntry
    rw [hbyKey, find?_append_of_none _ _ hE]
    rw [List.find?_cons_of_pos _ (by simp)]
  · refine Or.inr ⟨e0, hE, ?_⟩
    unfold lookupEntry
    rw [hbyKey, find?_map_repl]
    rw [show s.byKey.find? (fun e => e.key = k) = some e0 from hE]
    rfl
  · refine Or.inr ⟨e0, hE, ?_⟩
    rw [hs, hE]
    have he : ({ e0 with cellIdx := positionToCellIndex g x y }) = e0 := by
      rw [← heq]
    rw [he]

/-- Claim C9, amended.  After any sequence of operations, a successful
`insert(key, x, y)` leaves the key in exactly one cell — the cell covering
the coordinates just passed to `insert` — and the entry's recorded
coordinates are those of its first insert: they equal `(x, y)` only for a
fresh key, while a re-inserted key keeps its original coordinates (so the
original claim's "cell covers the entry's stored coordinates" fails after a
moving re-insert, as the counterexample shows). -/
theorem C9_insert_cell_amended (g : Grid) (ops : List GridOp) (k x y : Nat)
    (s' : IndexState) (b : Bool)
    (h : insert g (runOps g ops) k x y = Except.ok (s', b)) :
    InsertCellConcl g (runOps g ops) k x y s' := by
  have hWF : WF (runOps g ops) := WF_runOps g ops
  have hWF' : WF s' := WF_insert g (runOps g ops) k x y s' b hWF h
  have hlook : ∃ e', lookupEntry s' k = some e' ∧
      e'.cellIdx = positionToCellIndex g x y ∧
      ((lookupEntry (runOps g ops) k = none → e'.x = x ∧ e'.y = y) ∧
       (∀ e0, lookupEntry (runOps g ops) k = some e0 →
          e'.x = e0.x ∧ e'.y = e0.y)) := by
    rcases insert_lookup g (runOps g ops) k x y s' b h with
      ⟨hE, hlook⟩ | ⟨e0, hE, hlook⟩
    · refine ⟨_, hlook, rfl, ⟨fun _ => ⟨rfl, rfl⟩, ?_⟩⟩
      intro e0 hE'
      rw [hE] at hE'
      exact absurd hE' (by simp)
    · refine ⟨_, hlook, rfl, ⟨?_, ?_⟩⟩
      · intro hE'
        rw [hE] at hE'
        exact absurd hE' (by simp)
      · intro e1 hE'
        rw [hE] at hE'
        rcases Option.some.inj hE' with rfl
        exact ⟨rfl, rfl⟩
  obtain ⟨e', hlookup, hcell, hcoords⟩ := hlook
  have hmem := WF_mem_iff_of_some s' hWF' k e' hlookup
  refine ⟨?_, ?_, ⟨e', hlookup⟩, ?_⟩
  · refine ⟨e'.cellIdx, (hmem e'.cellIdx).mpr rfl, ?_⟩
    intro j hj
    exact (hmem j).mp hj
  · intro j hj
    rw [(hmem j).mp hj]
    exact hcell
  · intro e'' hlookup''
    rw [hlookup] at hlookup''
    rcases Option.some.inj hlookup'' with rfl
    exact ⟨hcell, hcoords.1, hcoords.2⟩

/-- Witness for claim C9 at a concrete fresh insert. -/
theorem C9_insert_cell_witness :
    ∃ r, insert g9 (runOps g9 []) 1 0 0 = Except.ok r ∧
      InsertCellConcl g9 (runOps g9 []) 1 0 0 r.1 :=
  ⟨_, rfl, C9_insert_cell_amended g9 [] 1 0 0 _ _ rfl⟩

/-- With a zero load cap, the single-player trial violates the cap. -/
theorem cfgY_violation :
    cfgY.maxComfortableLoadFactor < trialLoadFactor cfgY [((0 : Int), (0 : Int))] 0 := by
  have hown : trialOwn cfgY [((0 : Int), (0 : Int))] 0 = [0] := by decide
  have hext : trialExt cfgY [((0 : Int), (0 : Int))] 0 = [] := by decide
  unfold trialLoadFactor
  rw [hown, hext]
  simp only [List.length_cons, List.length_nil, Nat.zero_add]
  unfold cfgY loadFactorOf PROC_TIME_MINE_IN_MICROS
    PROC_TIME_OTHER_IN_MICROS PLAYER_STATE_SEND_FREQ_IN_HZ
  push_cast
  norm_num

/-- Witness for claim C3 at a concrete violating trial. -/
theorem C3_load_cap_witness :
    (∃ i, i < List.length [((0 : Int), (0 : Int))] ∧
      cfgY.maxComfortableLoadFactor
        < trialLoadFactor cfgY [((0 : Int), (0 : Int))] i) ∧
    LoadCapConcl cfgY initialPState [((0 : Int), (0 : Int))] :=
  ⟨⟨0, by decide, cfgY_violation⟩,
    C3_load_cap_rejection cfgY initialPState [((0 : Int), (0 : Int))]
      ⟨0, by decide, cfgY_violation⟩⟩

/-- Witness for claim C4 at a concrete configuration. -/
theorem C4_monotone_best_witness : MonotoneBest cfgX :=
  C4_monotone_best cfgX

/-- Claim C10, counterexample.  With one player at the origin, a first trial
with focus placement `(1, 1)` is accepted; a second trial with placement
`(2, 2)` ties on forwards and is rejected — yet the partitioner's
caller-readable focus list has been overwritten by the rejected trial. -/
theorem C10_counterexample_rejected_trial_mutates :
    (randomizeFocuses cfgX stX1 [(2, 2)]).2 = false ∧
    (randomizeFocuses cfgX stX1 [(2, 2)]).1.focuses ≠ stX1.focuses := by
  refine ⟨trial2_rejected, ?_⟩
  rw [trial2_focuses, stX1_focuses]
  decide

/-- Witness for claim C10 at the concrete rejected trial. -/
theorem C10_rejected_trial_witness :
    ((randomizeFocuses cfgX stX1 [(2, 2)]).2 = false) ∧
      RejectedTrialConcl cfgX stX1 [(2, 2)] :=
  ⟨trial2_rejected,
    C10_rejected_trial_amended cfgX stX1 [(2, 2)] trial2_rejected⟩
